import Mathlib

/-!
# An asynchronous file logger (`myLogger.go`)

A shallow embedding of the Go program: severities and their names, call-site
capture, the bounded record channel, the background writer with size-based
file rotation, construction and `Close`.

Conventions of the embedding.

* `LogLevel` is `uint16` in the source; levels are natural numbers here and no
  arithmetic is performed on them, only comparisons.
* A Go run-time panic is the result `none` of an `Option`-valued function.
* Library functions whose behaviour over all inputs is outside the program
  (`strings.ToLower`, `fmt.Sprintf` on the caller's operands, `path.Join`) are
  fields of `Lib`, so every statement holds for whatever they compute.
* The clock, the call stack reported by the runtime and the success of
  `os.OpenFile` are inputs of the operations that consult them.
* All files are opened with `O_APPEND`, so the disk is a journal of the chunks
  appended, each with the name of the file it went to.
* The buffered channel is the list of the records it holds, oldest first,
  together with its capacity.
* `writeLogBackground` is one iteration of the writer loop run without
  interruption. Since `f.fileObj` is shared with `Close` without
  synchronisation, the writer is also given step by step (`tick`), and the
  goroutines are interleaved at the granularity of one `log` call, one step
  of the writer, one `Close`.
-/

namespace MyLogger

/-! ## Severities -/

/-- LogLevel is `uint16` in the source. -/
abbrev LogLevel := Nat

def UNKNOWN : LogLevel := 0
def DEBUG : LogLevel := 1
def TRACE : LogLevel := 2
def Info : LogLevel := 3
def WARNING : LogLevel := 4
def ERROR : LogLevel := 5
def FATAL : LogLevel := 6

/-- MaxSize is the package variable giving the capacity of the record channel. -/
def MaxSize : Nat := 10000

/-- Operands passed for `a ...interface{}`; the driver passes integers and strings. -/
inductive Value where
  | int (i : Int)
  | str (s : String)
deriving DecidableEq, Repr

/-- Library functions taken as given. -/
structure Lib where
  /-- The function `strings.ToLower`. -/
  ToLower : String → String
  /-- The function `fmt.Sprintf` applied to the caller's format and operands. -/
  Sprintf : String → List Value → String
  /-- The function `path.Join` of two elements. -/
  Join : String → String → String

/-- The error value built by `errors.New`; `none` is `nil`. -/
abbrev GoError := Option String

def parseloglevel (L : Lib) (s : String) : LogLevel × GoError :=
  let s := L.ToLower s
  if s = "debug" then (DEBUG, none)
  else if s = "trace" then (TRACE, none)
  else if s = "info" then (Info, none)
  else if s = "warning" then (WARNING, none)
  else if s = "error" then (ERROR, none)
  else if s = "fatal" then (FATAL, none)
  else (UNKNOWN, some "无效的日志级别")

def getlogString (lv : LogLevel) : String :=
  if lv = DEBUG then "DEBUG"
  else if lv = TRACE then "TRACE"
  else if lv = Info then "Info"
  else if lv = WARNING then "WARNING"
  else if lv = ERROR then "ERROR"
  else if lv = FATAL then "FATAL"
  else "DEBUG"

/-! ## Call-site capture -/

/-- Pieces of a character list separated by `sep`; an input without `sep`
gives the one-element list holding the input. -/
def splitChars (sep : Char) : List Char → List (List Char)
  | [] => [[]]
  | c :: cs =>
    if c = sep then [] :: splitChars sep cs
    else
      match splitChars sep cs with
      | [] => [[c]]
      | piece :: pieces => (c :: piece) :: pieces

/-- The call `strings.Split(s, sep)` for a one-character separator. -/
def stringsSplit (s : String) (sep : Char) : List String :=
  (splitChars sep s.toList).map String.mk

/-- The function `path.Base`: the last element of a slash-separated path, after
removing trailing slashes; `.` for the empty path, `/` for a path of slashes. -/
def pathBase (path : String) : String :=
  if path = "" then "."
  else
    let stripped := (path.toList.reverse.dropWhile (fun c => c = '/')).reverse
    let last := (stripped.reverse.takeWhile (fun c => c ≠ '/')).reverse
    if last = [] then "/" else String.mk last

/-- What the runtime reports for one frame of the call stack:
`runtime.FuncForPC(pc).Name()`, the file and the line of `runtime.Caller`. -/
structure Frame where
  funcName : String
  file : String
  line : Int
deriving DecidableEq, Repr

/-- The function `getInfo`. `Caller skip` is the result of `runtime.Caller(skip)`
seen from `getInfo`, `none` when it reports `ok == false`. The result `none`
is the index-out-of-range panic of `strings.Split(file, ".")[1]`. -/
def getInfo (Caller : Nat → Option Frame) (skip : Nat) : Option (String × String × Int) :=
  match Caller skip with
  | none => some ("", "", 0)
  | some fr =>
    let funcName := fr.funcName
    -- fileName = path.Base(file), a value the next assignment overwrites
    let _ := pathBase fr.file
    match (stringsSplit fr.file '.')[1]? with
    | none => none
    | some fileName => some (funcName, fileName, fr.line)

/-! ## Time stamps -/

/-- The wall-clock reading of `time.Now()`, year between 0 and 9999. -/
structure Time where
  year : Nat
  month : Nat
  day : Nat
  hour : Nat
  minute : Nat
  second : Nat
deriving DecidableEq, Repr

def digitChar (n : Nat) : Char := Char.ofNat (48 + n % 10)

def pad2 (n : Nat) : String := String.mk [digitChar (n / 10), digitChar n]

def pad4 (n : Nat) : String :=
  String.mk [digitChar (n / 1000), digitChar (n / 100), digitChar (n / 10), digitChar n]

/-- Hour on the 12-hour clock, layout element `03`. -/
def hour12 (h : Nat) : Nat := if h % 12 = 0 then 12 else h % 12

/-- Layout `2006-01-02 15:04:05`. -/
def Time.formatStamp (t : Time) : String :=
  pad4 t.year ++ "-" ++ pad2 t.month ++ "-" ++ pad2 t.day ++ " " ++
    pad2 t.hour ++ ":" ++ pad2 t.minute ++ ":" ++ pad2 t.second

/-- Layout `20060102150405`. -/
def Time.formatName24 (t : Time) : String :=
  pad4 t.year ++ pad2 t.month ++ pad2 t.day ++ pad2 t.hour ++ pad2 t.minute ++ pad2 t.second

/-- Layout `20060102030405`. -/
def Time.formatName12 (t : Time) : String :=
  pad4 t.year ++ pad2 t.month ++ pad2 t.day ++ pad2 (hour12 t.hour) ++ pad2 t.minute ++
    pad2 t.second

/-! ## Formatting with an empty operand list

`fmt.Fprintf(w, format)` called without operands, as the writer loop does with
the finished line: text is copied, `%%` gives `%`, and every other directive
has no operand to print. The functions follow `doPrintf`, `argNumber`,
`parseArgNumber` and `parsenum` of package `fmt` on the part of the format
that is still to be read. -/

/-- The digits loop of `parsenum`: the number read so far, whether a digit was
seen, and what follows; a number above one million abandons the format. -/
def parsenumLoop : Nat → Bool → List Char → Nat × Bool × List Char
  | num, isnum, [] => (num, isnum, [])
  | num, isnum, c :: cs =>
    if c.isDigit then
      if num > 1000000 then (0, false, [])
      else parsenumLoop (num * 10 + (c.toNat - 48)) true cs
    else (num, isnum, c :: cs)

def parsenum (s : List Char) : Nat × Bool × List Char := parsenumLoop 0 false s

/-- The function `parseArgNumber` on a format that starts with `[`: whether a
well-formed index `[n]` was read, and what follows the part consumed. -/
def parseArgNumber (format : List Char) : Bool × List Char :=
  if format.length < 3 then (false, format.drop 1)
  else
    let body := format.drop 1
    let inner := body.takeWhile (fun c => c ≠ ']')
    if inner.length = body.length then (false, format.drop 1)
    else
      let after := body.drop (inner.length + 1)
      match parsenum inner with
      | (_, ok, rest) => if ok && rest.isEmpty then (true, after) else (false, after)

/-- The function `argNumber` when there is no operand: what follows, whether an
index was found, and whether the argument number is still good. -/
def argNumber (format : List Char) (good : Bool) : List Char × Bool × Bool :=
  match format with
  | '[' :: _ =>
    match parseArgNumber format with
    | (ok, rest) => (rest, ok, false)
  | _ => (format, false, good)

def isFlag (c : Char) : Bool := c = '#' || c = '0' || c = '+' || c = '-' || c = ' '

/-- The width of a directive: a `*` finds no operand and writes `%!(BADWIDTH)`,
digits are read by `parsenum`. Gives the text written, what follows, and the
two flags `afterIndex` and `goodArgNum`. -/
def widthPart (format : List Char) (afterIndex good : Bool) :
    List Char × List Char × Bool × Bool :=
  match format with
  | '*' :: rest => ("%!(BADWIDTH)".toList, rest, false, good)
  | _ =>
    match parsenum format with
    | (_, present, rest) => ([], rest, afterIndex, if afterIndex && present then false else good)

/-- The precision of a directive, read after a `.`: an index, then a `*` that
finds no operand and writes `%!(BADPREC)`, or digits. -/
def precPart (format : List Char) (afterIndex good : Bool) :
    List Char × List Char × Bool × Bool :=
  match format with
  | '.' :: rest =>
    match argNumber rest (if afterIndex then false else good) with
    | (rest, afterIndex, good) =>
      match rest with
      | '*' :: rest => ("%!(BADPREC)".toList, rest, false, good)
      | _ =>
        match parsenum rest with
        | (_, _, rest) => ([], rest, afterIndex, good)
  | _ => ([], format, afterIndex, good)

/-- The verb of a directive: the text written and what follows, `none` when
the format ended before the verb. -/
def verbPart (format : List Char) (afterIndex good : Bool) : List Char × Option (List Char) :=
  match (if afterIndex then (format, afterIndex, good) else argNumber format good) with
  | ([], _, _) => ("%!(NOVERB)".toList, none)
  | (verb :: rest, _, good) =>
    if verb = '%' then (['%'], some rest)
    else if !good then ("%!".toList ++ [verb] ++ "(BADINDEX)".toList, some rest)
    else ("%!".toList ++ [verb] ++ "(MISSING)".toList, some rest)

/-- One directive of `doPrintf` with no operand, read after its `%`: flags,
index, width, precision, index, verb. Gives the text it writes and what
follows it; `none` for what follows ends the format. -/
def directive (format : List Char) : List Char × Option (List Char) :=
  match argNumber (format.dropWhile isFlag) true with
  | (format, afterIndex, good) =>
    match widthPart format afterIndex good with
    | (out1, format, afterIndex, good) =>
      match precPart format afterIndex good with
      | (out2, format, afterIndex, good) =>
        match verbPart format afterIndex good with
        | (out3, rest) => (out1 ++ out2 ++ out3, rest)

/-- The loop of `doPrintf` with no operand. Each round copies the text up to
the next `%` and handles one directive; `fuel` bounds the rounds. -/
def doPrintfLoop : Nat → List Char → List Char
  | 0, _ => []
  | fuel + 1, format =>
    let text := format.takeWhile (fun c => c ≠ '%')
    match format.dropWhile (fun c => c ≠ '%') with
    | [] => text
    | _ :: rest =>
      match directive rest with
      | (out, none) => text ++ out
      | (out, some rest) => text ++ out ++ doPrintfLoop fuel rest

/-- The text `fmt.Fprintf(w, format)` sends to `w`. A round consumes at least
the `%` it starts from, so `format.length + 1` rounds are enough. -/
def sprintfNoOperand (format : String) : String :=
  String.mk (doPrintfLoop (format.length + 1) format.toList)

/-! ## Files -/

/-- An `*os.File`: the name it was opened with and whether it has been closed. -/
structure File where
  name : String
  closed : Bool
deriving DecidableEq, Repr

/-- The disk: the chunks appended so far, oldest first, each paired with the
name of the file it was appended to. -/
abbrev Disk := List (String × String)

/-- Size in bytes of the file called `name`. -/
def Disk.size (d : Disk) (name : String) : Int :=
  ((d.filter (fun e => e.1 = name)).map (fun e => (e.2.utf8ByteSize : Int))).sum

/-- The chunks written so far, whatever file they went to. -/
def Disk.chunks (d : Disk) : List String := d.map Prod.snd

/-- The calls `file.Stat()` and `Size()`; `none` is the error a nil or closed
file gives. -/
def fileStat (d : Disk) (file : Option File) : Option Int :=
  match file with
  | none => none
  | some fl => if fl.closed then none else some (d.size fl.name)

/-- The call `file.Close()`. -/
def fileClose (file : Option File) : Option File :=
  file.map (fun fl => { fl with closed := true })

/-- The call `os.OpenFile(name, O_CREATE|O_APPEND|O_WRONLY, 0644)`; `ok` tells
whether the operating system grants it. -/
def OpenFile (name : String) (ok : Bool) : Option File :=
  if ok then some { name := name, closed := false } else none

/-- The call `fmt.Fprintf(file, format)`, whose error result the program drops:
nothing is appended through a nil or closed file. -/
def Fprintf (d : Disk) (file : Option File) (format : String) : Disk :=
  match file with
  | none => d
  | some fl => if fl.closed then d else d ++ [(fl.name, sprintfNoOperand format)]

/-! ## The logger -/

structure logMsg where
  Level : LogLevel
  msg : String
  funcName : String
  fileName : String
  timeStamp : String
  line : Int
deriving DecidableEq, Repr

/-- The struct `Filelogger`; `logChan` lists the records in the channel, oldest
first, and `logChanCap` is the capacity the channel was made with. -/
structure Filelogger where
  level : LogLevel
  filepath : String
  filename : String
  fileObj : Option File
  maxFileSize : Int
  logChan : List logMsg
  logChanCap : Nat
deriving DecidableEq, Repr

/-- The program: the logger, the disk, and whether the goroutine running
`writeLogBackground` is still in its loop. -/
structure State where
  f : Filelogger
  disk : Disk
  writing : Bool
deriving DecidableEq, Repr

def Filelogger.enable (f : Filelogger) (levellog : LogLevel) : Bool :=
  decide (levellog ≥ f.level)

def Filelogger.checkSize (f : Filelogger) (d : Disk) (file : Option File) : Bool :=
  match fileStat d file with
  | none => false
  | some size => decide (size ≥ f.maxFileSize)

/-- The method `spitfile`: the file it was given, now closed, and the file it
opened, `none` when `os.OpenFile` fails. -/
def Filelogger.spitfile (_f : Filelogger) (file : Option File) (now : Time) (openOk : Bool) :
    Option File × Option File :=
  let file := fileClose file
  let newLogName := now.formatName24 ++ ".log"
  (file, OpenFile newLogName openOk)

/-- The line built by `fmt.Sprintf("[%s] [%s] [%s: %s: %d] %s\n", ...)` from the
fields of a record. -/
def logLine (logTmp : logMsg) : String :=
  "[" ++ logTmp.timeStamp ++ "] [" ++ getlogString logTmp.Level ++ "] [" ++ logTmp.fileName ++
    ": " ++ logTmp.funcName ++ ": " ++ toString logTmp.line ++ "] " ++ logTmp.msg ++ "\n"

/-- First half of an iteration of `writeLogBackground`: the size check and the
rotation. When `spitfile` fails the loop is left. -/
def rotateStep (s : State) (now : Time) (openOk : Bool) : State :=
  if s.f.checkSize s.disk s.f.fileObj then
    match s.f.spitfile s.f.fileObj now openOk with
    | (closedFile, none) => { s with f := { s.f with fileObj := closedFile }, writing := false }
    | (_, some newFile) => { s with f := { s.f with fileObj := some newFile } }
  else s

/-- Second half of an iteration: the `select`. A record taken from the channel
is formatted and written at once; an empty channel means half a second of
sleep, which changes nothing. -/
def selectStep (s : State) : State :=
  match s.f.logChan with
  | logTmp :: rest =>
    let logInfo := logLine logTmp
    { s with f := { s.f with logChan := rest }, disk := Fprintf s.disk s.f.fileObj logInfo }
  | [] => s

/-- One iteration of the loop of `writeLogBackground`. -/
def writeLogBackground (s : State) (now : Time) (openOk : Bool) : State :=
  if s.writing then
    let s1 := rotateStep s now openOk
    if s1.writing then selectStep s1 else s1
  else s

/-- The record `log` builds, `none` when `getInfo` panics. -/
def buildRecord (L : Lib) (lv : LogLevel) (format : String) (a : List Value) (now : Time)
    (Caller : Nat → Option Frame) : Option logMsg :=
  let msg := L.Sprintf format a
  match getInfo Caller 3 with
  | none => none
  | some (funcName, fileName, lineNo) =>
    some { Level := lv, msg := msg, funcName := funcName, fileName := fileName,
           timeStamp := now.formatStamp, line := lineNo }

/-- The `select` of `log`: send if the channel has room, otherwise drop. -/
def trySend (f : Filelogger) (logTmp : logMsg) : Filelogger :=
  if f.logChan.length < f.logChanCap then { f with logChan := f.logChan ++ [logTmp] }
  else f

/-- The method `log`; `none` is a panic. -/
def Filelogger.log (L : Lib) (f : Filelogger) (lv : LogLevel) (format : String) (a : List Value)
    (now : Time) (Caller : Nat → Option Frame) : Option Filelogger :=
  if f.enable lv then
    match buildRecord L lv format a now Caller with
    | none => none
    | some logTmp => some (trySend f logTmp)
  else some f

def Filelogger.Debug (L : Lib) (f : Filelogger) (format : String) (a : List Value) (now : Time)
    (Caller : Nat → Option Frame) : Option Filelogger :=
  f.log L DEBUG format a now Caller

def Filelogger.Info (L : Lib) (f : Filelogger) (format : String) (a : List Value) (now : Time)
    (Caller : Nat → Option Frame) : Option Filelogger :=
  f.log L MyLogger.Info format a now Caller

def Filelogger.Warning (L : Lib) (f : Filelogger) (format : String) (a : List Value) (now : Time)
    (Caller : Nat → Option Frame) : Option Filelogger :=
  f.log L WARNING format a now Caller

def Filelogger.Error (L : Lib) (f : Filelogger) (format : String) (a : List Value) (now : Time)
    (Caller : Nat → Option Frame) : Option Filelogger :=
  f.log L ERROR format a now Caller

def Filelogger.Fatal (L : Lib) (f : Filelogger) (format : String) (a : List Value) (now : Time)
    (Caller : Nat → Option Frame) : Option Filelogger :=
  f.log L FATAL format a now Caller

/-- The method `initfile`: the logger with its file opened, or the error of
`os.OpenFile`. On success the caller finds the writer goroutine started. -/
def Filelogger.initfile (L : Lib) (f : Filelogger) (openOk : Bool) : Filelogger × GoError :=
  let fullFileName := L.Join f.filepath f.filename
  match OpenFile fullFileName openOk with
  | none => (f, some "open log file failed")
  | some fileObj => ({ f with fileObj := some fileObj }, none)

/-- The constructor `NewFileLogger`; `chanSize` is the value of the package
variable `MaxSize` at the call and `none` is a panic. -/
def NewFileLogger (L : Lib) (chanSize : Nat) (levelStr fp : String) (maxSize : Int) (now : Time)
    (openOk : Bool) (disk : Disk) : Option State :=
  match parseloglevel L levelStr with
  | (_, some _) => none
  | (level, none) =>
    let logName := now.formatName12 ++ ".log"
    let fl : Filelogger :=
      { level := level, filepath := fp, filename := logName, fileObj := none,
        maxFileSize := maxSize, logChan := [], logChanCap := chanSize }
    match fl.initfile L openOk with
    | (_, some _) => none
    | (fl, none) => some { f := fl, disk := disk, writing := true }

/-- The method `Close`. -/
def Filelogger.Close (f : Filelogger) : Filelogger :=
  { f with fileObj := fileClose f.fileObj }

/-! ## Interleavings -/

/-- Where the writer goroutine stands in `writeLogBackground`: before the size
check at the head of the loop, before the call of `spitfile` that the check
decided, before the assignment `f.fileObj = newFile`, before the `select`,
before formatting and writing the record it received, or returned. -/
inductive Pc where
  | check
  | rotate
  | assign (newFile : File)
  | recv
  | print (logTmp : logMsg)
  | done
deriving DecidableEq, Repr

/-- The program with the writer between two of its steps. -/
structure Sys where
  f : Filelogger
  disk : Disk
  pc : Pc
deriving DecidableEq, Repr

/-- The program between two iterations of the writer. -/
def State.toSys (s : State) : Sys :=
  { f := s.f, disk := s.disk, pc := if s.writing then Pc.check else Pc.done }

/-- One step of the writer. The call of `spitfile` is one step: it closes the
file `f.fileObj` points to and opens the new one, and a `Close` falling inside
it would only close that same file once more. -/
def tick (y : Sys) (now : Time) (openOk : Bool) : Sys :=
  match y.pc with
  | .check =>
    if y.f.checkSize y.disk y.f.fileObj then { y with pc := .rotate } else { y with pc := .recv }
  | .rotate =>
    match y.f.spitfile y.f.fileObj now openOk with
    | (closedFile, none) => { y with f := { y.f with fileObj := closedFile }, pc := .done }
    | (closedFile, some newFile) =>
      { y with f := { y.f with fileObj := closedFile }, pc := .assign newFile }
  | .assign newFile => { y with f := { y.f with fileObj := some newFile }, pc := .recv }
  | .recv =>
    match y.f.logChan with
    | logTmp :: rest => { y with f := { y.f with logChan := rest }, pc := .print logTmp }
    | [] => { y with pc := .check }
  | .print logTmp =>
    { y with disk := Fprintf y.disk y.f.fileObj (logLine logTmp), pc := .check }
  | .done => y

/-- What the goroutines do, one at a time: a `log` call of a producer, one
step of the writer, or a call of `Close`. -/
inductive Event where
  | log (lv : LogLevel) (format : String) (a : List Value) (now : Time)
      (Caller : Nat → Option Frame)
  | tick (now : Time) (openOk : Bool)
  | close

def step (L : Lib) (y : Sys) : Event → Option Sys
  | .log lv format a now Caller =>
    match y.f.log L lv format a now Caller with
    | none => none
    | some f => some { y with f := f }
  | .tick now openOk => some (tick y now openOk)
  | .close => some { y with f := y.f.Close }

def run (L : Lib) : Sys → List Event → Option Sys
  | y, [] => some y
  | y, e :: es =>
    match step L y e with
    | none => none
    | some y1 => run L y1 es

/-- Steps of the writer one after the other with nothing in between, each with
its clock reading and the outcome of the `os.OpenFile` it may attempt. -/
def tickLoop (y : Sys) : List (Time × Bool) → Sys
  | [] => y
  | (now, openOk) :: rest => tickLoop (tick y now openOk) rest

/-- Whether no `Close` occurs among the events. -/
def closeFree : List Event → Bool
  | [] => true
  | .close :: _ => false
  | _ :: es => closeFree es

/-- The record a `log` event puts in the channel, if it puts one. -/
def acceptedBy (L : Lib) (y : Sys) : Event → List logMsg
  | .log lv format a now Caller =>
    if y.f.enable lv && decide (y.f.logChan.length < y.f.logChanCap) then
      (buildRecord L lv format a now Caller).toList
    else []
  | .tick _ _ => []
  | .close => []

/-- The records accepted into the channel along a run, in the order of the
calls that sent them. -/
def accepted (L : Lib) : Sys → List Event → List logMsg
  | _, [] => []
  | y, e :: es =>
    match step L y e with
    | none => []
    | some y1 => acceptedBy L y e ++ accepted L y1 es

/-- The records accepted and not yet handed to `Fprintf`: the one the writer
has received and is about to write, then those in the channel. -/
def pending (y : Sys) : List logMsg :=
  match y.pc with
  | .print logTmp => logTmp :: y.f.logChan
  | _ => y.f.logChan

/-- The chunk the writer hands to the file for a record. -/
def chunkOf (logTmp : logMsg) : String := sprintfNoOperand (logLine logTmp)

/-- A bound on the steps the writer needs to have written every pending
record: five for each record in the channel and up to four to get there. -/
def potential (y : Sys) : Nat :=
  5 * y.f.logChan.length +
    (match y.pc with
     | .recv => 0
     | .assign _ => 1
     | .rotate => 2
     | .check => 3
     | .print _ => 4
     | .done => 0)

/-- The writer has an open file to write to: the one the logger owns or, in
the middle of a rotation, the one about to be assigned. -/
def Owned (y : Sys) : Prop :=
  match y.pc with
  | .done => True
  | .assign newFile => newFile.closed = false
  | _ => ∃ name, y.f.fileObj = some { name := name, closed := false }

/-- The file the logger owns is nil or closed and no rotation is under way. -/
def Shut (y : Sys) : Prop :=
  fileClose y.f.fileObj = y.f.fileObj ∧ y.pc ≠ Pc.rotate ∧ ∀ newFile, y.pc ≠ Pc.assign newFile

/-- Library functions for the examples: lower-casing of the ASCII letters,
a message that is the format itself, and joining with one slash. -/
def asciiLib : Lib where
  ToLower := fun s => String.mk (s.toList.map Char.toLower)
  Sprintf := fun format _ => format
  Join := fun dir name => dir ++ "/" ++ name

/-! ## Inputs used by the examples -/

/-- Two in the afternoon of 2 January 2024, four minutes and five seconds in. -/
def sampleTime : Time :=
  { year := 2024, month := 1, day := 2, hour := 15, minute := 4, second := 5 }

/-- A stack whose every frame is line 42 of `/home/u/app/main.go`. -/
def sampleCaller : Nat → Option Frame :=
  fun _ => some { funcName := "main.main", file := "/home/u/app/main.go", line := 42 }

/-- A stack whose frames lie in a file named without a dot. -/
def dotlessCaller : Nat → Option Frame :=
  fun _ => some { funcName := "main.main", file := "/home/u/app/main", line := 42 }

def sampleRecord (msg : String) : logMsg :=
  { Level := ERROR, msg := msg, funcName := "main.main", fileName := "go",
    timeStamp := "2024-01-02 15:04:05", line := 42 }

/-- A logger at level `Info` writing to `/var/log/app.log`, rotating at
`maxFileSize` bytes, its channel of capacity `cap` holding `queue`. -/
def sampleLogger (maxFileSize : Int) (cap : Nat) (queue : List logMsg) : Filelogger :=
  { level := Info, filepath := "/var/log", filename := "app.log",
    fileObj := some { name := "/var/log/app.log", closed := false },
    maxFileSize := maxFileSize, logChan := queue, logChanCap := cap }

def sampleState (maxFileSize : Int) (cap : Nat) (queue : List logMsg) (disk : Disk) : State :=
  { f := sampleLogger maxFileSize cap queue, disk := disk, writing := true }

/-- The state `NewFileLogger` returns for level `info`, directory `/var/log`,
a threshold of ten kilobytes and the default channel capacity, on an empty
disk at `sampleTime`. -/
def freshState : State :=
  { f := { level := Info, filepath := "/var/log", filename := "20240102030405.log",
           fileObj := some { name := "/var/log/20240102030405.log", closed := false },
           maxFileSize := 10240, logChan := [], logChanCap := MaxSize },
    disk := [], writing := true }

/-- Two `ERROR` calls, then the three steps in which the writer checks the
size, receives the first record and writes it. -/
def sampleEvents : List Event :=
  [Event.log ERROR "first" [] sampleTime sampleCaller,
   Event.log ERROR "second" [] sampleTime sampleCaller,
   Event.tick sampleTime true, Event.tick sampleTime true, Event.tick sampleTime true]

/-- Where `sampleEvents` lead from `freshState`. -/
def sampleFinal : Sys :=
  { f := { freshState.f with logChan := [sampleRecord "second"] },
    disk := [("/var/log/20240102030405.log",
      "[2024-01-02 15:04:05] [ERROR] [go: main.main: 42] first\n")],
    pc := Pc.check }

/-- An `ERROR` call, a `Close`, then the three steps in which the writer checks
the size, receives the record and writes it. -/
def closedEvents : List Event :=
  [Event.log ERROR "first" [] sampleTime sampleCaller, Event.close,
   Event.tick sampleTime true, Event.tick sampleTime true, Event.tick sampleTime true]

/-- A logger like `freshState` whose threshold of zero bytes makes the first
size check decide a rotation. -/
def rotatingState : State :=
  { freshState with f := { freshState.f with maxFileSize := 0 } }

/-- An `ERROR` call, then steps of the writer in which the rotation fails. -/
def failedEvents : List Event :=
  [Event.log ERROR "first" [] sampleTime sampleCaller,
   Event.tick sampleTime false, Event.tick sampleTime false, Event.tick sampleTime false,
   Event.tick sampleTime false]

/-! ## Severity names -/

/-- C1: `parseloglevel` succeeds exactly when the lower-cased name is one of
debug, trace, info, warning, error, fatal; it then returns the severity of that
name; on any other input it returns `UNKNOWN` with an error, and `UNKNOWN` is
returned only together with an error. -/
theorem parseloglevel_spec (L : Lib) (name : String) :
    ((parseloglevel L name).2 = none ↔
      L.ToLower name ∈ ["debug", "trace", "info", "warning", "error", "fatal"]) ∧
    ((L.ToLower name = "debug" ∧ parseloglevel L name = (DEBUG, none)) ∨
     (L.ToLower name = "trace" ∧ parseloglevel L name = (TRACE, none)) ∨
     (L.ToLower name = "info" ∧ parseloglevel L name = (Info, none)) ∨
     (L.ToLower name = "warning" ∧ parseloglevel L name = (WARNING, none)) ∨
     (L.ToLower name = "error" ∧ parseloglevel L name = (ERROR, none)) ∨
     (L.ToLower name = "fatal" ∧ parseloglevel L name = (FATAL, none)) ∨
     (L.ToLower name ∉ ["debug", "trace", "info", "warning", "error", "fatal"] ∧
       (parseloglevel L name).1 = UNKNOWN ∧ (parseloglevel L name).2 ≠ none)) ∧
    ((parseloglevel L name).1 = UNKNOWN ↔ (parseloglevel L name).2 ≠ none) := by
  unfold parseloglevel
  by_cases h1 : L.ToLower name = "debug"
  · simp [h1, DEBUG, UNKNOWN]
  by_cases h2 : L.ToLower name = "trace"
  · simp [h2, TRACE, UNKNOWN]
  by_cases h3 : L.ToLower name = "info"
  · simp [h3, Info, UNKNOWN]
  by_cases h4 : L.ToLower name = "warning"
  · simp [h4, WARNING, UNKNOWN]
  by_cases h5 : L.ToLower name = "error"
  · simp [h5, ERROR, UNKNOWN]
  by_cases h6 : L.ToLower name = "fatal"
  · simp [h6, FATAL, UNKNOWN]
  simp [h1, h2, h3, h4, h5, h6, UNKNOWN]

/-- Matching ignores case: mixed-case spellings parse to their severity. -/
theorem parseloglevel_mixed_case :
    parseloglevel asciiLib "DeBuG" = (DEBUG, none) ∧
    parseloglevel asciiLib "WARNING" = (WARNING, none) ∧
    parseloglevel asciiLib "Fatal" = (FATAL, none) ∧
    (parseloglevel asciiLib "verbose").1 = UNKNOWN ∧
    (parseloglevel asciiLib "verbose").2 ≠ none := by
  decide

/-- C8: `getlogString` gives each of the six severities its own label, gives
`UNKNOWN` the label DEBUG, and every level is one of the six or else is
`UNKNOWN` or above `FATAL` and is labelled DEBUG. -/
theorem getlogString_total (lv : LogLevel) :
    getlogString DEBUG = "DEBUG" ∧ getlogString TRACE = "TRACE" ∧ getlogString Info = "Info" ∧
    getlogString WARNING = "WARNING" ∧ getlogString ERROR = "ERROR" ∧
    getlogString FATAL = "FATAL" ∧ getlogString UNKNOWN = "DEBUG" ∧
    (lv = DEBUG ∨ lv = TRACE ∨ lv = Info ∨ lv = WARNING ∨ lv = ERROR ∨ lv = FATAL ∨
      ((lv = UNKNOWN ∨ FATAL < lv) ∧ getlogString lv = "DEBUG")) := by
  refine ⟨by decide, by decide, by decide, by decide, by decide, by decide, by decide, ?_⟩
  unfold getlogString DEBUG TRACE Info WARNING ERROR FATAL UNKNOWN
  by_cases h1 : lv = 1
  · simp [h1]
  by_cases h2 : lv = 2
  · simp [h2]
  by_cases h3 : lv = 3
  · simp [h3]
  by_cases h4 : lv = 4
  · simp [h4]
  by_cases h5 : lv = 5
  · simp [h5]
  by_cases h6 : lv = 6
  · simp [h6]
  simp [h1, h2, h3, h4, h5, h6]
  unfold LogLevel at *
  omega

/-! ## Call-site capture -/

/-- C9: for the caller file `/home/u/app/main.go`, `getInfo` returns the file
name `go`, the second dot-separated piece of the whole path, while
`path.Base` of that path is `main.go`; for a caller file without a dot the
indexing panics. -/
theorem getInfo_fileName_is_second_piece :
    getInfo sampleCaller 3 = some ("main.main", "go", 42) ∧
    pathBase "/home/u/app/main.go" = "main.go" ∧
    getInfo dotlessCaller 3 = none := by
  decide

/-- Whenever `getInfo` returns for a resolved frame, the file name it gives is
the piece of the path between its first and second dot. -/
theorem getInfo_fileName (Caller : Nat → Option Frame) (skip : Nat) (fr : Frame)
    (funcName fileName : String) (lineNo : Int) (hc : Caller skip = some fr)
    (h : getInfo Caller skip = some (funcName, fileName, lineNo)) :
    (stringsSplit fr.file '.')[1]? = some fileName ∧ funcName = fr.funcName ∧
      lineNo = fr.line := by
  unfold getInfo at h
  rw [hc] at h
  cases hs : (stringsSplit fr.file '.')[1]? with
  | none => simp [hs] at h
  | some piece =>
    simp [hs] at h
    obtain ⟨h1, h2, h3⟩ := h
    simp [h1, h2, h3]

/-- An unresolved frame gives empty names and line zero, without failing. -/
theorem getInfo_unresolved (Caller : Nat → Option Frame) (skip : Nat)
    (hc : Caller skip = none) : getInfo Caller skip = some ("", "", 0) := by
  simp [getInfo, hc]

/-! ## The level gate and the bounded channel -/

theorem rotateStep_chan (s : State) (now : Time) (openOk : Bool) :
    (rotateStep s now openOk).f.logChan = s.f.logChan ∧
    (rotateStep s now openOk).f.logChanCap = s.f.logChanCap ∧
    (rotateStep s now openOk).disk = s.disk := by
  unfold rotateStep
  split
  · split <;> simp
  · simp

theorem selectStep_chan (s : State) :
    (selectStep s).f.logChan = s.f.logChan.tail ∧
    (selectStep s).f.logChanCap = s.f.logChanCap ∧
    (selectStep s).f.fileObj = s.f.fileObj ∧
    (selectStep s).writing = s.writing := by
  unfold selectStep
  split <;> simp_all

theorem writeLogBackground_chan (s : State) (now : Time) (openOk : Bool) :
    ((writeLogBackground s now openOk).f.logChan = s.f.logChan ∨
      (writeLogBackground s now openOk).f.logChan = s.f.logChan.tail) ∧
    (writeLogBackground s now openOk).f.logChanCap = s.f.logChanCap := by
  unfold writeLogBackground
  have hr := rotateStep_chan s now openOk
  have hs := selectStep_chan (rotateStep s now openOk)
  by_cases hw : s.writing = true
  · by_cases hw1 : (rotateStep s now openOk).writing = true
    · simp only [hw, hw1, if_true]
      rw [hs.1, hs.2.1, hr.1, hr.2.1]
      simp
    · simp only [hw, hw1, if_true]
      simp [hr.1, hr.2.1]
  · simp [hw]

theorem trySend_chan (f : Filelogger) (logTmp : logMsg)
    (hb : f.logChan.length ≤ f.logChanCap) :
    (trySend f logTmp).logChanCap = f.logChanCap ∧
    (trySend f logTmp).logChan.length ≤ f.logChanCap := by
  unfold trySend
  split
  · simp
    omega
  · simp [hb]

theorem NewFileLogger_fresh (L : Lib) (chanSize : Nat) (levelStr fp : String) (maxSize : Int)
    (now : Time) (openOk : Bool) (disk : Disk) (s : State)
    (h : NewFileLogger L chanSize levelStr fp maxSize now openOk disk = some s) :
    s.f.logChan = [] ∧ s.f.logChanCap = chanSize ∧ s.disk = disk ∧ s.writing = true ∧
    s.f.fileObj = some { name := L.Join fp (now.formatName12 ++ ".log"), closed := false } ∧
    s.f.maxFileSize = maxSize ∧ s.f.filepath = fp ∧ (parseloglevel L levelStr) = (s.f.level, none) := by
  unfold NewFileLogger at h
  rcases hp : parseloglevel L levelStr with ⟨lv, err⟩
  cases err with
  | some e => simp [hp] at h
  | none =>
    cases openOk with
    | false => simp [hp, Filelogger.initfile, OpenFile] at h
    | true =>
      simp [hp, Filelogger.initfile, OpenFile] at h
      subst h
      simp

theorem log_result (L : Lib) (f : Filelogger) (lv : LogLevel) (format : String)
    (a : List Value) (now : Time) (Caller : Nat → Option Frame) :
    (lv < f.level → f.log L lv format a now Caller = some f) ∧
    (∀ logTmp, f.level ≤ lv → buildRecord L lv format a now Caller = some logTmp →
      (logTmp.Level = lv ∧ logTmp.msg = L.Sprintf format a ∧
        logTmp.timeStamp = now.formatStamp) ∧
      (f.logChan.length < f.logChanCap →
        f.log L lv format a now Caller = some { f with logChan := f.logChan ++ [logTmp] }) ∧
      (f.logChanCap ≤ f.logChan.length → f.log L lv format a now Caller = some f)) := by
  constructor
  · intro hlt
    have : f.enable lv = false := by
      unfold Filelogger.enable
      simp only [decide_eq_false_iff_not, ge_iff_le, not_le]
      exact hlt
    simp [Filelogger.log, this]
  · intro logTmp hge hrec
    have hen : f.enable lv = true := by
      unfold Filelogger.enable
      simp only [decide_eq_true_eq, ge_iff_le]
      exact hge
    refine ⟨?_, ?_, ?_⟩
    · unfold buildRecord at hrec
      cases hg : getInfo Caller 3 with
      | none => simp [hg] at hrec
      | some info =>
        simp [hg] at hrec
        subst hrec
        simp
    · intro hroom
      simp [Filelogger.log, hen, hrec, trySend, hroom]
    · intro hfull
      have : ¬ f.logChan.length < f.logChanCap := by omega
      simp [Filelogger.log, hen, hrec, trySend, this]

/-- C2, as the code has it: a call below the minimum severity leaves the
logger as it was; a call at or above it whose record gets built appends that
record at the tail of the channel when the channel holds fewer records than
its capacity, and leaves the channel as it was when the channel is full. -/
theorem log_level_gate (L : Lib) (f : Filelogger) (lv : LogLevel) (format : String)
    (a : List Value) (now : Time) (Caller : Nat → Option Frame) :
    (lv < f.level → f.log L lv format a now Caller = some f) ∧
    (∀ logTmp, f.level ≤ lv → buildRecord L lv format a now Caller = some logTmp →
      (logTmp.Level = lv ∧ logTmp.msg = L.Sprintf format a ∧
        logTmp.timeStamp = now.formatStamp) ∧
      (f.logChan.length < f.logChanCap →
        f.log L lv format a now Caller = some { f with logChan := f.logChan ++ [logTmp] }) ∧
      (f.logChanCap ≤ f.logChan.length → f.log L lv format a now Caller = some f)) :=
  log_result L f lv format a now Caller

/-- C2 fails as stated: with the channel full, a call at `ERROR` on a logger
whose minimum is `Info` leaves the channel holding the one earlier record. -/
theorem log_at_enabled_level_not_enqueued :
    (sampleLogger 100 1 [sampleRecord "first"]).enable ERROR = true ∧
    (sampleLogger 100 1 [sampleRecord "first"]).log asciiLib ERROR "second" [] sampleTime
      sampleCaller = some (sampleLogger 100 1 [sampleRecord "first"]) := by
  decide

/-- An `ERROR` call on a logger at `Info` whose channel of capacity two holds
one record: the record of the call is appended behind it. -/
theorem log_level_gate_witness :
    (Info ≤ ERROR ∧
      buildRecord asciiLib ERROR "second" [] sampleTime sampleCaller =
        some (sampleRecord "second") ∧
      (sampleLogger 100 2 [sampleRecord "first"]).logChan.length <
        (sampleLogger 100 2 [sampleRecord "first"]).logChanCap) ∧
    (sampleLogger 100 2 [sampleRecord "first"]).log asciiLib ERROR "second" [] sampleTime
        sampleCaller =
      some (sampleLogger 100 2 [sampleRecord "first", sampleRecord "second"]) :=
  ⟨⟨by decide, by decide, by decide⟩,
    ((log_level_gate asciiLib (sampleLogger 100 2 [sampleRecord "first"]) ERROR "second" []
      sampleTime sampleCaller).2 (sampleRecord "second") (by decide) (by decide)).2.1
      (by decide)⟩

theorem tick_chan (y : Sys) (now : Time) (openOk : Bool) :
    (tick y now openOk).f.logChanCap = y.f.logChanCap ∧
    (tick y now openOk).f.logChan.length ≤ y.f.logChan.length := by
  rcases y with ⟨f, disk, pc⟩
  cases pc with
  | check => simp only [tick]; split <;> simp
  | rotate => simp only [tick]; split <;> simp
  | assign nf => simp [tick]
  | recv =>
    simp only [tick]
    split
    · rename_i r rest h
      have h1 : f.logChan = r :: rest := h
      simp [h1]
    · simp
  | print r => simp [tick]
  | done => simp [tick]

theorem step_bounded (L : Lib) (y y1 : Sys) (e : Event) (h : step L y e = some y1)
    (hb : y.f.logChan.length ≤ y.f.logChanCap) :
    y1.f.logChanCap = y.f.logChanCap ∧ y1.f.logChan.length ≤ y.f.logChanCap := by
  cases e with
  | log lv format a now Caller =>
    simp only [step] at h
    unfold Filelogger.log at h
    by_cases he : y.f.enable lv = true
    · simp only [he, if_true] at h
      cases hr : buildRecord L lv format a now Caller with
      | none => simp [hr] at h
      | some logTmp =>
        simp [hr] at h
        subst h
        exact trySend_chan y.f logTmp hb
    · simp [he] at h
      subst h
      exact ⟨rfl, hb⟩
  | tick now openOk =>
    simp only [step, Option.some.injEq] at h
    subst h
    have hc := tick_chan y now openOk
    exact ⟨hc.1, Nat.le_trans hc.2 hb⟩
  | close =>
    simp only [step, Option.some.injEq] at h
    subst h
    exact ⟨rfl, hb⟩

theorem run_bounded (L : Lib) (evs : List Event) :
    ∀ y y1 : Sys, run L y evs = some y1 → y.f.logChan.length ≤ y.f.logChanCap →
      y1.f.logChanCap = y.f.logChanCap ∧ y1.f.logChan.length ≤ y.f.logChanCap := by
  induction evs with
  | nil =>
    intro y y1 h hb
    simp only [run, Option.some.injEq] at h
    subst h
    exact ⟨rfl, hb⟩
  | cons e es ih =>
    intro y y1 h hb
    simp only [run] at h
    cases hs : step L y e with
    | none => simp [hs] at h
    | some y2 =>
      simp only [hs] at h
      have h2 := step_bounded L y y2 e hs hb
      have h3 := ih y2 y1 h (by rw [h2.1]; exact h2.2)
      rw [h2.1] at h3
      exact h3

/-- In every state a freshly constructed logger reaches through `log` calls,
steps of the writer and calls of `Close`, the channel holds at most as many
records as the capacity it was made with. -/
theorem channel_bounded (L : Lib) (chanSize : Nat) (levelStr fp : String)
    (maxSize : Int) (t0 : Time) (openOk : Bool) (disk0 : Disk) (s0 : State) (evs : List Event)
    (y : Sys) (h0 : NewFileLogger L chanSize levelStr fp maxSize t0 openOk disk0 = some s0)
    (hrun : run L s0.toSys evs = some y) :
    y.f.logChanCap = chanSize ∧ y.f.logChan.length ≤ chanSize := by
  have hf := NewFileLogger_fresh L chanSize levelStr fp maxSize t0 openOk disk0 s0 h0
  have hb := run_bounded L evs s0.toSys y hrun (by simp [State.toSys, hf.1])
  simp only [State.toSys, hf.2.1] at hb
  exact hb

/-- A `log` call on a full channel that is below the minimum severity, or has
built its record, returns normally and leaves the logger as it was. -/
theorem log_full_channel (L : Lib) (f : Filelogger) (lv : LogLevel) (format : String)
    (a : List Value) (now : Time) (Caller : Nat → Option Frame)
    (hfull : f.logChanCap ≤ f.logChan.length) :
    (lv < f.level → f.log L lv format a now Caller = some f) ∧
    (∀ logTmp, buildRecord L lv format a now Caller = some logTmp →
      f.log L lv format a now Caller = some f) := by
  have hg := log_result L f lv format a now Caller
  refine ⟨hg.1, ?_⟩
  intro logTmp hrec
  by_cases hlv : lv < f.level
  · exact hg.1 hlv
  · exact (hg.2 logTmp (Nat.le_of_not_lt hlv) hrec).2.2 hfull

theorem writeLogBackground_select (s : State) (now : Time) (openOk : Bool)
    (hw : s.writing = true) (hw1 : (rotateStep s now openOk).writing = true) :
    writeLogBackground s now openOk = selectStep (rotateStep s now openOk) := by
  simp [writeLogBackground, hw, hw1]

theorem writeLogBackground_exit (s : State) (now : Time) (openOk : Bool)
    (hw : s.writing = true) (hw1 : (rotateStep s now openOk).writing = false) :
    writeLogBackground s now openOk = rotateStep s now openOk := by
  simp [writeLogBackground, hw, hw1]

theorem writeLogBackground_stopped (s : State) (now : Time) (openOk : Bool)
    (hw : s.writing = false) : writeLogBackground s now openOk = s := by
  simp [writeLogBackground, hw]

theorem rotateStep_below (s : State) (now : Time) (openOk : Bool)
    (hcs : s.f.checkSize s.disk s.f.fileObj = false) : rotateStep s now openOk = s := by
  simp [rotateStep, hcs]

theorem rotateStep_opened (s : State) (now : Time)
    (hcs : s.f.checkSize s.disk s.f.fileObj = true) :
    (rotateStep s now true).f.fileObj =
        some { name := now.formatName24 ++ ".log", closed := false } ∧
      (rotateStep s now true).writing = s.writing := by
  simp [rotateStep, hcs, Filelogger.spitfile, OpenFile]

theorem rotateStep_failed (s : State) (now : Time)
    (hcs : s.f.checkSize s.disk s.f.fileObj = true) :
    (rotateStep s now false).f.fileObj = fileClose s.f.fileObj ∧
      (rotateStep s now false).writing = false := by
  simp [rotateStep, hcs, Filelogger.spitfile, OpenFile]

/-- The steps of the writer, run without interruption from the head of the
loop, make up one iteration: at most five of them lead to the state
`writeLogBackground` gives. -/
theorem iteration_steps (s : State) (now : Time) (openOk : Bool) :
    ∃ n, n ≤ 5 ∧ tickLoop s.toSys (List.replicate n (now, openOk)) =
      (writeLogBackground s now openOk).toSys := by
  rcases s with ⟨f, disk, writing⟩
  cases writing with
  | false => exact ⟨0, by omega, by simp [tickLoop, writeLogBackground]⟩
  | true =>
    cases hcs : f.checkSize disk f.fileObj with
    | false =>
      cases hq : f.logChan with
      | nil =>
        exact ⟨2, by omega, by
          simp [tickLoop, List.replicate, tick, State.toSys, writeLogBackground, rotateStep,
            selectStep, hcs, hq]⟩
      | cons r rest =>
        exact ⟨3, by omega, by
          simp [tickLoop, List.replicate, tick, State.toSys, writeLogBackground, rotateStep,
            selectStep, hcs, hq]⟩
    | true =>
      cases openOk with
      | false =>
        exact ⟨2, by omega, by
          simp [tickLoop, List.replicate, tick, State.toSys, writeLogBackground, rotateStep,
            selectStep, hcs, Filelogger.spitfile, OpenFile]⟩
      | true =>
        cases hq : f.logChan with
        | nil =>
          exact ⟨4, by omega, by
            simp [tickLoop, List.replicate, tick, State.toSys, writeLogBackground, rotateStep,
              selectStep, hcs, hq, Filelogger.spitfile, OpenFile]⟩
        | cons r rest =>
          exact ⟨5, by omega, by
            simp [tickLoop, List.replicate, tick, State.toSys, writeLogBackground, rotateStep,
              selectStep, hcs, hq, Filelogger.spitfile, OpenFile]⟩

/-- C5, as the code has it: in an iteration of the writer, a size at or above
`maxFileSize` makes the writer close its file and, when the new file opens,
own the new file named by the moment; when the new file does not open the
writer keeps the closed file and leaves its loop with channel and disk
untouched. A size below the threshold, or a failing `Stat`, leaves the owned
file and the loop as they were. Step by step: after a size at or above the
threshold the first step of the iteration decides the rotation, the second
leaves the logger owning its old file, closed, and the writer about to
assign the new file or, when that did not open, returned, and the third
assigns the new file; after a smaller size or a failing `Stat` the first step
goes on to the `select`; and the steps of an iteration run without
interruption end in the state given for the iteration. -/
theorem rotation_rule (s : State) (now : Time) (openOk : Bool) (hw : s.writing = true) :
    (∀ size, fileStat s.disk s.f.fileObj = some size → s.f.maxFileSize ≤ size →
      (openOk = true →
        (writeLogBackground s now openOk).f.fileObj =
            some { name := now.formatName24 ++ ".log", closed := false } ∧
          (writeLogBackground s now openOk).writing = true) ∧
      (openOk = false →
        (writeLogBackground s now openOk).f.fileObj = fileClose s.f.fileObj ∧
          (writeLogBackground s now openOk).writing = false ∧
          (writeLogBackground s now openOk).disk = s.disk ∧
          (writeLogBackground s now openOk).f.logChan = s.f.logChan)) ∧
    (∀ size, fileStat s.disk s.f.fileObj = some size → size < s.f.maxFileSize →
      (writeLogBackground s now openOk).f.fileObj = s.f.fileObj ∧
        (writeLogBackground s now openOk).writing = true) ∧
    (fileStat s.disk s.f.fileObj = none →
      (writeLogBackground s now openOk).f.fileObj = s.f.fileObj ∧
        (writeLogBackground s now openOk).writing = true) ∧
    (∀ size, fileStat s.disk s.f.fileObj = some size → s.f.maxFileSize ≤ size →
      tick s.toSys now openOk = { s.toSys with pc := Pc.rotate } ∧
      (tick (tick s.toSys now openOk) now openOk).f.fileObj = fileClose s.f.fileObj ∧
      (tick (tick s.toSys now openOk) now openOk).pc =
        (if openOk then Pc.assign { name := now.formatName24 ++ ".log", closed := false }
         else Pc.done) ∧
      (tick (tick (tick s.toSys now openOk) now openOk) now openOk).f.fileObj =
        (if openOk then some { name := now.formatName24 ++ ".log", closed := false }
         else fileClose s.f.fileObj)) ∧
    ((fileStat s.disk s.f.fileObj = none ∨
        ∃ size, fileStat s.disk s.f.fileObj = some size ∧ size < s.f.maxFileSize) →
      tick s.toSys now openOk = { s.toSys with pc := Pc.recv }) ∧
    (∃ n, n ≤ 5 ∧ tickLoop s.toSys (List.replicate n (now, openOk)) =
      (writeLogBackground s now openOk).toSys) := by
  have below : s.f.checkSize s.disk s.f.fileObj = false →
      (writeLogBackground s now openOk).f.fileObj = s.f.fileObj ∧
        (writeLogBackground s now openOk).writing = true := by
    intro hcs
    have hr := rotateStep_below s now openOk hcs
    have hsel := selectStep_chan s
    rw [writeLogBackground_select s now openOk hw (by rw [hr]; exact hw), hr, hsel.2.2.1,
      hsel.2.2.2]
    exact ⟨rfl, hw⟩
  refine ⟨?_, ?_, ?_, ?_, ?_, iteration_steps s now openOk⟩
  · intro size hst hge
    have hcs : s.f.checkSize s.disk s.f.fileObj = true := by
      simp [Filelogger.checkSize, hst, hge]
    constructor
    · intro hok
      subst hok
      have hr := rotateStep_opened s now hcs
      have hsel := selectStep_chan (rotateStep s now true)
      rw [writeLogBackground_select s now true hw (by rw [hr.2]; exact hw), hsel.2.2.1,
        hsel.2.2.2, hr.1, hr.2]
      exact ⟨rfl, hw⟩
    · intro hok
      subst hok
      have hr := rotateStep_failed s now hcs
      have hc := rotateStep_chan s now false
      rw [writeLogBackground_exit s now false hw hr.2]
      exact ⟨hr.1, hr.2, hc.2.2, hc.1⟩
  · intro size hst hlt
    exact below (by simp [Filelogger.checkSize, hst, hlt])
  · intro hst
    exact below (by simp [Filelogger.checkSize, hst])
  · intro size hst hge
    have hcs : s.f.checkSize s.disk s.f.fileObj = true := by
      simp [Filelogger.checkSize, hst, hge]
    rcases s with ⟨f, disk, writing⟩
    simp only at hw hcs
    subst hw
    cases openOk <;> simp [State.toSys, tick, hcs, Filelogger.spitfile, OpenFile]
  · intro hno
    have hcs : s.f.checkSize s.disk s.f.fileObj = false := by
      rcases hno with hst | ⟨size, hst, hlt⟩
      · simp [Filelogger.checkSize, hst]
      · simp [Filelogger.checkSize, hst, hlt]
    rcases s with ⟨f, disk, writing⟩
    simp only at hw hcs
    subst hw
    simp [State.toSys, tick, hcs]

/-- C5 fails as stated: the file holds twelve bytes against a threshold of ten,
the new file cannot be opened, and the iteration ends with the old file closed
and still owned, no new file in its place, and the writer out of its loop. -/
theorem size_reached_without_replacement :
    fileStat [("/var/log/app.log", "0123456789ab")]
      (sampleLogger 10 2 [sampleRecord "m"]).fileObj = some 12 ∧
    writeLogBackground
      (sampleState 10 2 [sampleRecord "m"] [("/var/log/app.log", "0123456789ab")])
      sampleTime false =
      { f := { sampleLogger 10 2 [sampleRecord "m"] with
               fileObj := some { name := "/var/log/app.log", closed := true } },
        disk := [("/var/log/app.log", "0123456789ab")], writing := false } := by
  decide

/-- Twelve bytes against a threshold of ten, the new file opening: the writer
owns the file named by the moment and stays in its loop, and its second step
leaves the old file closed. -/
theorem rotation_rule_witness :
    ((sampleState 10 2 [sampleRecord "m"] [("/var/log/app.log", "0123456789ab")]).writing =
        true ∧
      fileStat (sampleState 10 2 [sampleRecord "m"] [("/var/log/app.log", "0123456789ab")]).disk
        (sampleState 10 2 [sampleRecord "m"] [("/var/log/app.log", "0123456789ab")]).f.fileObj =
        some 12 ∧
      (sampleState 10 2 [sampleRecord "m"]
        [("/var/log/app.log", "0123456789ab")]).f.maxFileSize ≤ 12) ∧
    ((writeLogBackground
        (sampleState 10 2 [sampleRecord "m"] [("/var/log/app.log", "0123456789ab")])
        sampleTime true).f.fileObj =
        some { name := sampleTime.formatName24 ++ ".log", closed := false } ∧
      (writeLogBackground
        (sampleState 10 2 [sampleRecord "m"] [("/var/log/app.log", "0123456789ab")])
        sampleTime true).writing = true) ∧
    (tick (tick
        (sampleState 10 2 [sampleRecord "m"] [("/var/log/app.log", "0123456789ab")]).toSys
        sampleTime true) sampleTime true).f.fileObj =
      fileClose
        (sampleState 10 2 [sampleRecord "m"] [("/var/log/app.log", "0123456789ab")]).f.fileObj :=
  ⟨⟨by decide, by decide, by decide⟩,
    ((rotation_rule (sampleState 10 2 [sampleRecord "m"] [("/var/log/app.log", "0123456789ab")])
      sampleTime true (by decide)).1 12 (by decide) (by decide)).1 rfl,
    ((rotation_rule (sampleState 10 2 [sampleRecord "m"] [("/var/log/app.log", "0123456789ab")])
      sampleTime true (by decide)).2.2.2.1 12 (by decide) (by decide)).2.1⟩

/-- The name `spitfile` opens is the moment followed by `.log`, whatever the
directory the logger was configured with. -/
theorem spitfile_name (f : Filelogger) (file : Option File) (now : Time) :
    (f.spitfile file now true).2 =
      some { name := now.formatName24 ++ ".log", closed := false } := by
  simp [Filelogger.spitfile, OpenFile]

/-- C7: a logger constructed for directory `/var/log` opens its first file
inside that directory, and the file its first rotation opens is named
`20240102150405.log` with no directory in front. -/
theorem rotated_file_outside_directory :
    (NewFileLogger asciiLib MaxSize "info" "/var/log" 0 sampleTime true []).map
      (fun s => (s.f.filepath, s.f.fileObj, (writeLogBackground s sampleTime true).f.fileObj)) =
      some ("/var/log", some { name := "/var/log/20240102030405.log", closed := false },
        some { name := "20240102150405.log", closed := false }) := by
  decide

/-- The method `initfile` opens the join of the directory and the file name. -/
theorem initfile_name (L : Lib) (f : Filelogger) :
    (f.initfile L true).1.fileObj =
      some { name := L.Join f.filepath f.filename, closed := false } := by
  simp [Filelogger.initfile, OpenFile]

/-! ## The line written -/

theorem parsenumLoop_length (s : List Char) :
    ∀ num isnum, (parsenumLoop num isnum s).2.2.length ≤ s.length := by
  induction s with
  | nil => intro num isnum; simp [parsenumLoop]
  | cons c cs ih =>
    intro num isnum
    unfold parsenumLoop
    by_cases hd : c.isDigit = true
    · by_cases hn : num > 1000000
      · simp [hd, hn]
      · simp only [hd, hn, if_true, if_false]
        have := ih (num * 10 + (c.toNat - 48)) true
        simp only [List.length_cons]
        omega
    · simp [hd]

theorem parseArgNumber_length (format : List Char) :
    (parseArgNumber format).2.length ≤ format.length := by
  unfold parseArgNumber
  split
  · simp
  · dsimp only
    split
    · simp
    · split <;> (simp only [List.length_drop]; omega)

theorem argNumber_length (format : List Char) (good : Bool) :
    (argNumber format good).1.length ≤ format.length := by
  unfold argNumber
  split
  · exact parseArgNumber_length _
  · simp

theorem widthPart_length (format : List Char) (afterIndex good : Bool) :
    (widthPart format afterIndex good).2.1.length ≤ format.length := by
  unfold widthPart
  split
  · simp
  · exact parsenumLoop_length format 0 false

theorem precPart_length (format : List Char) (afterIndex good : Bool) :
    (precPart format afterIndex good).2.1.length ≤ format.length := by
  unfold precPart
  split
  · rename_i rest
    have h1 := argNumber_length rest (if afterIndex then false else good)
    simp only [List.length_cons]
    split
    · rename_i rest2 h2
      simp only [h2, List.length_cons] at h1
      simp
      omega
    · have h3 := parsenumLoop_length (argNumber rest (if afterIndex then false else good)).1 0 false
      simp only [parsenum]
      exact Nat.le_trans h3 (Nat.le_trans h1 (Nat.le_succ _))
  · simp

theorem verbPart_length (format : List Char) (afterIndex good : Bool) (out rest : List Char)
    (h : verbPart format afterIndex good = (out, some rest)) : rest.length ≤ format.length := by
  unfold verbPart at h
  have hlen : (if afterIndex then (format, afterIndex, good) else argNumber format good).1.length
      ≤ format.length := by
    cases afterIndex with
    | true => simp
    | false => exact argNumber_length format good
  split at h
  · simp at h
  · rename_i verb rest1 x g heq
    rw [heq] at hlen
    simp only [List.length_cons] at hlen
    have : rest = rest1 := by
      by_cases hv : verb = '%'
      · simp [hv] at h; exact h.2.symm
      · cases g <;> simp [hv] at h <;> exact h.2.symm
    subst this
    omega

theorem directive_length (format out rest : List Char)
    (h : directive format = (out, some rest)) : rest.length ≤ format.length := by
  unfold directive at h
  simp only [Prod.mk.injEq] at h
  have h0 : (format.dropWhile isFlag).length ≤ format.length := by
    have := (List.dropWhile_sublist (l := format) isFlag).length_le
    exact this
  have h1 := argNumber_length (format.dropWhile isFlag) true
  have h2 := widthPart_length (argNumber (format.dropWhile isFlag) true).1
    (argNumber (format.dropWhile isFlag) true).2.1 (argNumber (format.dropWhile isFlag) true).2.2
  generalize hw : widthPart (argNumber (format.dropWhile isFlag) true).1
    (argNumber (format.dropWhile isFlag) true).2.1 (argNumber (format.dropWhile isFlag) true).2.2
    = w at h h2
  have h3 := precPart_length w.2.1 w.2.2.1 w.2.2.2
  generalize hp : precPart w.2.1 w.2.2.1 w.2.2.2 = p at h h3
  have h4 := verbPart_length p.2.1 p.2.2.1 p.2.2.2 (verbPart p.2.1 p.2.2.1 p.2.2.2).1 rest
    (by rw [← h.2])
  omega

theorem doPrintfLoop_fuel (n : Nat) :
    ∀ (format : List Char) (m : Nat), format.length < n → format.length < m →
      doPrintfLoop n format = doPrintfLoop m format := by
  induction n with
  | zero => intro format m h; omega
  | succ n ih =>
    intro format m hn hm
    cases m with
    | zero => omega
    | succ m =>
      have hdl : (format.dropWhile (fun c => decide (c ≠ '%'))).length ≤ format.length :=
        (List.dropWhile_sublist (l := format) (fun c => decide (c ≠ '%'))).length_le
      cases hd : format.dropWhile (fun c => decide (c ≠ '%')) with
      | nil => simp only [doPrintfLoop, hd]
      | cons c rest =>
        rw [hd] at hdl
        simp only [List.length_cons] at hdl
        rcases hdir : directive rest with ⟨out, _ | rest1⟩
        · simp only [doPrintfLoop, hd, hdir]
        · have hlen := directive_length rest out rest1 hdir
          simp only [doPrintfLoop, hd, hdir]
          rw [ih rest1 m (by omega) (by omega)]

/-- Rounds beyond `format.length + 1` do not change what is written: the loop
of `sprintfNoOperand` always runs to the end of the format. -/
theorem sprintfNoOperand_fuel (format : String) (extra : Nat) :
    String.mk (doPrintfLoop (format.length + 1 + extra) format.toList) =
      sprintfNoOperand format := by
  have hl : format.length = format.toList.length := by cases format; rfl
  unfold sprintfNoOperand
  rw [doPrintfLoop_fuel (format.length + 1 + extra) format.toList (format.length + 1)
    (by omega) (by omega)]

theorem doPrintfLoop_plain (fuel : Nat) (format : List Char) (h : ∀ c ∈ format, c ≠ '%') :
    doPrintfLoop (fuel + 1) format = format := by
  have ht : format.takeWhile (fun c => decide (c ≠ '%')) = format := by
    rw [List.takeWhile_eq_self_iff]
    intro c hc
    simpa using h c hc
  have hd : format.dropWhile (fun c => decide (c ≠ '%')) = [] := by
    rw [List.dropWhile_eq_nil_iff]
    intro c hc
    simpa using h c hc
  simp only [doPrintfLoop, hd, ht]

/-- A format without `%` is written as it stands. -/
theorem sprintfNoOperand_plain (format : String) (h : ∀ c ∈ format.toList, c ≠ '%') :
    sprintfNoOperand format = format := by
  unfold sprintfNoOperand
  rw [doPrintfLoop_plain _ _ h]
  rfl

/-- A record whose line has no `%` is appended to the open file as exactly
that line, `[T] [LEVEL] [F: N: K] M` and a newline. -/
theorem selectStep_writes_line (s : State) (logTmp : logMsg) (rest : List logMsg)
    (name : String) (hq : s.f.logChan = logTmp :: rest)
    (hf : s.f.fileObj = some { name := name, closed := false })
    (h : ∀ c ∈ (logLine logTmp).toList, c ≠ '%') :
    (selectStep s).disk = s.disk ++ [(name,
      "[" ++ logTmp.timeStamp ++ "] [" ++ getlogString logTmp.Level ++ "] [" ++
        logTmp.fileName ++ ": " ++ logTmp.funcName ++ ": " ++ toString logTmp.line ++ "] " ++
        logTmp.msg ++ "\n")] := by
  unfold selectStep
  rw [hq]
  simp only [Fprintf, hf]
  rw [sprintfNoOperand_plain _ h]
  simp [logLine]

/-- The record of an `ERROR` call whose message is `x=5,y=z` is written as a
line that carries `[ERROR]` and ends in the message and a newline. -/
theorem error_record_line :
    (writeLogBackground (sampleState 100 2 [sampleRecord "x=5,y=z"] []) sampleTime true).disk =
      [("/var/log/app.log", "[2024-01-02 15:04:05] [ERROR] [go: main.main: 42] x=5,y=z\n")] := by
  decide

/-- C6: the record with message `100%` has the line ending in `100%` and a
newline, and the writer appends other bytes, because the line is handed to
`Fprintf` as its format. -/
theorem percent_in_message_rewritten :
    logLine (sampleRecord "100%") = "[2024-01-02 15:04:05] [ERROR] [go: main.main: 42] 100%\n" ∧
    (writeLogBackground (sampleState 100 2 [sampleRecord "100%"] []) sampleTime true).disk =
      [("/var/log/app.log",
        "[2024-01-02 15:04:05] [ERROR] [go: main.main: 42] 100%!\n(MISSING)")] := by
  decide

/-- With a library that renders `x=%d,y=%s` on 5 and `z` as `x=5,y=z`, the
`ERROR` call with that format is written as a line carrying `[ERROR]` and
ending in `] x=5,y=z` and a newline. -/
theorem formatted_error_line (L : Lib)
    (hS : L.Sprintf "x=%d,y=%s" [Value.int 5, Value.str "z"] = "x=5,y=z") :
    ((sampleLogger 100 2 []).log L ERROR "x=%d,y=%s" [Value.int 5, Value.str "z"] sampleTime
      sampleCaller).map
      (fun f => (writeLogBackground { f := f, disk := [], writing := true } sampleTime true).disk) =
      some [("/var/log/app.log",
        "[2024-01-02 15:04:05] [ERROR] [go: main.main: 42] x=5,y=z\n")] := by
  have hg : getInfo sampleCaller 3 = some ("main.main", "go", 42) := by decide
  have hb : buildRecord L ERROR "x=%d,y=%s" [Value.int 5, Value.str "z"] sampleTime
      sampleCaller = some (sampleRecord "x=5,y=z") := by
    simp only [buildRecord, hg, hS, sampleRecord]
    have : sampleTime.formatStamp = "2024-01-02 15:04:05" := by decide
    rw [this]
  have hl := ((log_result L (sampleLogger 100 2 []) ERROR "x=%d,y=%s"
    [Value.int 5, Value.str "z"] sampleTime sampleCaller).2 _ (by decide) hb).2.1 (by decide)
  have hw := error_record_line
  rw [hl]
  simp only [sampleState, sampleLogger, List.nil_append, Option.map_some'] at hw ⊢
  exact congrArg some hw

/-! ## Order of the records -/

theorem tick_idle (y : Sys) (now : Time) (openOk : Bool) (h : pending y = []) :
    pending (tick y now openOk) = [] ∧ (tick y now openOk).disk = y.disk := by
  rcases y with ⟨f, disk, pc⟩
  cases pc with
  | check => simp only [tick]; split <;> simpa [pending] using h
  | rotate => simp only [tick]; split <;> simpa [pending] using h
  | assign nf => simpa [tick, pending] using h
  | recv =>
    simp only [pending] at h
    simp [tick, pending, h]
  | print r => simp [pending] at h
  | done => simpa [tick, pending] using h

theorem tickLoop_idle (ws : List (Time × Bool)) :
    ∀ y : Sys, pending y = [] →
      pending (tickLoop y ws) = [] ∧ (tickLoop y ws).disk = y.disk := by
  induction ws with
  | nil => intro y h; exact ⟨h, rfl⟩
  | cons w rest ih =>
    intro y h
    obtain ⟨now, openOk⟩ := w
    have h1 := tick_idle y now openOk h
    have h2 := ih (tick y now openOk) h1.1
    simp only [tickLoop]
    exact ⟨h2.1, by rw [h2.2, h1.2]⟩

theorem tick_potential (y : Sys) (now : Time) (openOk : Bool) (h : pending y ≠ [])
    (hd : (tick y now openOk).pc ≠ Pc.done) : potential (tick y now openOk) < potential y := by
  rcases y with ⟨f, disk, pc⟩
  cases pc with
  | check => simp only [tick]; split <;> simp [potential]
  | rotate =>
    simp only [tick] at hd ⊢
    split
    · rename_i h1
      simp [h1] at hd
    · simp [potential]
  | assign nf => simp [tick, potential]
  | recv =>
    simp only [pending] at h
    cases hq : f.logChan with
    | nil => exact absurd hq h
    | cons r rest =>
      simp only [tick, hq, potential, List.length_cons]
      omega
  | print r => simp [tick, potential]
  | done => simp [tick] at hd

theorem potential_zero (y : Sys) (h : potential y = 0) : pending y = [] := by
  rcases y with ⟨f, disk, pc⟩
  cases pc <;> simp [potential] at h <;> simp [pending, h]

theorem drain_core (P : Sys → Prop) (ws : List (Time × Bool)) :
    (∀ y w, w ∈ ws → P y → P (tick y w.1 w.2) ∧ (tick y w.1 w.2).pc ≠ Pc.done) →
    ∀ y : Sys, P y → potential y ≤ ws.length → pending (tickLoop y ws) = [] := by
  induction ws with
  | nil =>
    intro _ y _ hpot
    exact potential_zero y (by simpa using hpot)
  | cons w rest ih =>
    intro hP y hy hpot
    obtain ⟨now, openOk⟩ := w
    have h1 := hP y (now, openOk) (List.mem_cons_self _ _) hy
    simp only [tickLoop]
    by_cases hp : pending y = []
    · exact (tickLoop_idle rest _ (tick_idle y now openOk hp).1).1
    · have hlt := tick_potential y now openOk hp h1.2
      simp only [List.length_cons] at hpot
      exact ih (fun y w hw => hP y w (List.mem_cons_of_mem _ hw)) _ h1.1 (by omega)

/-! ### What a step does to the pending records and to the disk -/

theorem log_effect (L : Lib) (y : Sys) (f1 : Filelogger) (lv : LogLevel) (format : String)
    (a : List Value) (now : Time) (Caller : Nat → Option Frame)
    (h : y.f.log L lv format a now Caller = some f1) :
    f1.logChan = y.f.logChan ++ acceptedBy L y (Event.log lv format a now Caller) ∧
    f1.fileObj = y.f.fileObj := by
  unfold Filelogger.log at h
  unfold acceptedBy
  cases he : y.f.enable lv with
  | false =>
    simp [he] at h
    subst h
    simp [he]
  | true =>
    simp only [he, if_true] at h
    cases hr : buildRecord L lv format a now Caller with
    | none => simp [hr] at h
    | some logTmp =>
      simp only [hr, Option.some.injEq] at h
      subst h
      unfold trySend
      by_cases hroom : y.f.logChan.length < y.f.logChanCap
      · simp [hroom, he, hr]
      · simp [hroom]

theorem tick_effect (y : Sys) (now : Time) (openOk : Bool) :
    (pending (tick y now openOk) = pending y ∧ (tick y now openOk).disk = y.disk) ∨
    (∃ r, y.pc = Pc.print r ∧ pending y = r :: pending (tick y now openOk) ∧
      (tick y now openOk).disk = Fprintf y.disk y.f.fileObj (logLine r)) := by
  rcases y with ⟨f, disk, pc⟩
  cases pc with
  | check => left; simp only [tick]; split <;> simp [pending]
  | rotate => left; simp only [tick]; split <;> simp [pending]
  | assign nf => left; simp [tick, pending]
  | recv =>
    left
    cases hq : f.logChan with
    | nil => simp [tick, pending, hq]
    | cons r rest => simp [tick, pending, hq]
  | print r => right; exact ⟨r, by simp [tick, pending]⟩
  | done => left; simp [tick, pending]

theorem Fprintf_cases (d : Disk) (file : Option File) (format : String) :
    Fprintf d file format = d ∨
    ∃ name, file = some { name := name, closed := false } ∧
      Fprintf d file format = d ++ [(name, sprintfNoOperand format)] := by
  cases file with
  | none => left; simp [Fprintf]
  | some fl =>
    rcases fl with ⟨name, closed⟩
    cases closed with
    | true => left; simp [Fprintf]
    | false => right; exact ⟨name, rfl, by simp [Fprintf]⟩

theorem step_effect (L : Lib) (y y1 : Sys) (e : Event) (h : step L y e = some y1) :
    (pending y1 = pending y ++ acceptedBy L y e ∧ y1.disk = y.disk) ∨
    (∃ r, pending y = r :: pending y1 ∧ acceptedBy L y e = [] ∧
      (y1.disk = y.disk ∨ ∃ name, y1.disk = y.disk ++ [(name, chunkOf r)])) := by
  cases e with
  | log lv format a now Caller =>
    left
    simp only [step] at h
    cases hl : y.f.log L lv format a now Caller with
    | none => simp [hl] at h
    | some f1 =>
      simp only [hl, Option.some.injEq] at h
      subst h
      have hle := log_effect L y f1 lv format a now Caller hl
      refine ⟨?_, rfl⟩
      rcases y with ⟨f, disk, pc⟩
      cases pc <;> simp [pending, hle.1]
  | tick now openOk =>
    simp only [step, Option.some.injEq] at h
    subst h
    rcases tick_effect y now openOk with h1 | ⟨r, _, h2, h3⟩
    · left
      simp [acceptedBy, h1.1, h1.2]
    · right
      refine ⟨r, h2, rfl, ?_⟩
      rcases Fprintf_cases y.disk y.f.fileObj (logLine r) with h4 | ⟨name, _, h4⟩
      · left; rw [h3, h4]
      · right; exact ⟨name, by rw [h3, h4]; rfl⟩
  | close =>
    left
    simp only [step, Option.some.injEq] at h
    subst h
    refine ⟨?_, rfl⟩
    rcases y with ⟨f, disk, pc⟩
    cases pc <;> simp [pending, acceptedBy, Filelogger.Close]

theorem run_order (L : Lib) (evs : List Event) :
    ∀ y y1 : Sys, run L y evs = some y1 →
      ∃ handled written : List logMsg,
        handled ++ pending y1 = pending y ++ accepted L y evs ∧ written.Sublist handled ∧
        y1.disk.chunks = y.disk.chunks ++ written.map chunkOf := by
  induction evs with
  | nil =>
    intro y y1 h
    simp only [run, Option.some.injEq] at h
    subst h
    exact ⟨[], [], by simp [accepted], List.Sublist.refl _, by simp⟩
  | cons e es ih =>
    intro y y1 h
    simp only [run] at h
    cases hs : step L y e with
    | none => simp [hs] at h
    | some y2 =>
      simp only [hs] at h
      obtain ⟨handled, written, h1, h2, h3⟩ := ih y2 y1 h
      have hacc : accepted L y (e :: es) = acceptedBy L y e ++ accepted L y2 es := by
        simp [accepted, hs]
      rcases step_effect L y y2 e hs with ⟨hq, hd⟩ | ⟨r, hq, ha, hd⟩
      · refine ⟨handled, written, ?_, h2, ?_⟩
        · rw [h1, hacc, hq, List.append_assoc]
        · rw [h3, hd]
      · rcases hd with hd | ⟨name, hd⟩
        · refine ⟨r :: handled, written, ?_, List.Sublist.cons r h2, ?_⟩
          · rw [hacc, ha, hq, List.cons_append, h1]
            simp
          · rw [h3, hd]
        · refine ⟨r :: handled, r :: written, ?_, List.Sublist.cons₂ r h2, ?_⟩
          · rw [hacc, ha, hq, List.cons_append, h1]
            simp
          · rw [h3, hd]
            simp [Disk.chunks]

/-! ### Runs without `Close` -/

theorem tick_owned (y : Sys) (now : Time) (openOk : Bool) (ho : Owned y) :
    Owned (tick y now openOk) ∧
    (openOk = true → y.pc ≠ Pc.done → (tick y now openOk).pc ≠ Pc.done) ∧
    ((pending (tick y now openOk) = pending y ∧ (tick y now openOk).disk = y.disk) ∨
      (∃ r name, y.pc = Pc.print r ∧ pending y = r :: pending (tick y now openOk) ∧
        (tick y now openOk).disk = y.disk ++ [(name, chunkOf r)])) := by
  rcases y with ⟨f, disk, pc⟩
  cases pc with
  | check =>
    have ho1 : ∃ name, f.fileObj = some { name := name, closed := false } := ho
    simp only [tick]
    split <;> exact ⟨ho1, by simp, Or.inl (by simp [pending])⟩
  | rotate =>
    cases openOk with
    | true =>
      exact ⟨by simp [tick, Filelogger.spitfile, OpenFile, Owned],
        by simp [tick, Filelogger.spitfile, OpenFile],
        Or.inl (by simp [tick, Filelogger.spitfile, OpenFile, pending])⟩
    | false =>
      exact ⟨by simp [tick, Filelogger.spitfile, OpenFile, Owned], by simp,
        Or.inl (by simp [tick, Filelogger.spitfile, OpenFile, pending])⟩
  | assign nf =>
    have ho1 : nf.closed = false := ho
    refine ⟨?_, by simp [tick], Or.inl (by simp [tick, pending])⟩
    rcases nf with ⟨name, closed⟩
    simp only at ho1
    subst ho1
    exact ⟨name, by simp [tick]⟩
  | recv =>
    have ho1 : ∃ name, f.fileObj = some { name := name, closed := false } := ho
    cases hq : f.logChan with
    | nil => exact ⟨by simpa [tick, hq, Owned] using ho1, by simp [tick, hq],
        Or.inl (by simp [tick, hq, pending])⟩
    | cons r rest => exact ⟨by simpa [tick, hq, Owned] using ho1, by simp [tick, hq],
        Or.inl (by simp [tick, hq, pending])⟩
  | print r =>
    have ho1 : ∃ name, f.fileObj = some { name := name, closed := false } := ho
    obtain ⟨name, hname⟩ := ho1
    refine ⟨by simpa [tick, Owned] using ⟨name, hname⟩, by simp [tick], Or.inr ⟨r, name, rfl, ?_, ?_⟩⟩
    · simp [tick, pending]
    · simp [tick, Fprintf, hname, chunkOf]
  | done => exact ⟨by simpa [tick] using ho, by simp, Or.inl (by simp [tick])⟩

theorem step_owned (L : Lib) (y y1 : Sys) (e : Event) (h : step L y e = some y1)
    (hc : closeFree (e :: []) = true) (ho : Owned y) :
    Owned y1 ∧
    ((pending y1 = pending y ++ acceptedBy L y e ∧ y1.disk = y.disk) ∨
      (∃ r name, pending y = r :: pending y1 ∧ acceptedBy L y e = [] ∧
        y1.disk = y.disk ++ [(name, chunkOf r)])) := by
  cases e with
  | log lv format a now Caller =>
    simp only [step] at h
    cases hl : y.f.log L lv format a now Caller with
    | none => simp [hl] at h
    | some f1 =>
      simp only [hl, Option.some.injEq] at h
      subst h
      have hle := log_effect L y f1 lv format a now Caller hl
      rcases y with ⟨f, disk, pc⟩
      constructor
      · cases pc <;> simp only [Owned, hle.2] at ho ⊢ <;> exact ho
      · left
        refine ⟨?_, rfl⟩
        cases pc <;> simp [pending, hle.1]
  | tick now openOk =>
    simp only [step, Option.some.injEq] at h
    subst h
    have ht := tick_owned y now openOk ho
    refine ⟨ht.1, ?_⟩
    rcases ht.2.2 with h1 | ⟨r, name, _, h2, h3⟩
    · left; simp [acceptedBy, h1.1, h1.2]
    · right; exact ⟨r, name, h2, rfl, h3⟩
  | close => simp [closeFree] at hc

theorem closeFree_cons (e : Event) (es : List Event) (h : closeFree (e :: es) = true) :
    closeFree (e :: []) = true ∧ closeFree es = true := by
  cases e <;> simp_all [closeFree]

theorem run_order_owned (L : Lib) (evs : List Event) :
    ∀ y y1 : Sys, closeFree evs = true → Owned y → run L y evs = some y1 →
      Owned y1 ∧ ∃ handled : List logMsg,
        handled ++ pending y1 = pending y ++ accepted L y evs ∧
        y1.disk.chunks = y.disk.chunks ++ handled.map chunkOf := by
  induction evs with
  | nil =>
    intro y y1 _ ho h
    simp only [run, Option.some.injEq] at h
    subst h
    exact ⟨ho, [], by simp [accepted], by simp⟩
  | cons e es ih =>
    intro y y1 hc ho h
    simp only [run] at h
    have hcc := closeFree_cons e es hc
    cases hs : step L y e with
    | none => simp [hs] at h
    | some y2 =>
      simp only [hs] at h
      have hso := step_owned L y y2 e hs hcc.1 ho
      obtain ⟨ho1, handled, h1, h3⟩ := ih y2 y1 hcc.2 hso.1 h
      have hacc : accepted L y (e :: es) = acceptedBy L y e ++ accepted L y2 es := by
        simp [accepted, hs]
      refine ⟨ho1, ?_⟩
      rcases hso.2 with ⟨hq, hd⟩ | ⟨r, name, hq, ha, hd⟩
      · refine ⟨handled, ?_, ?_⟩
        · rw [h1, hacc, hq, List.append_assoc]
        · rw [h3, hd]
      · refine ⟨r :: handled, ?_, ?_⟩
        · rw [hacc, ha, hq, List.cons_append, h1]
          simp
        · rw [h3, hd]
          simp [Disk.chunks]

theorem tickLoop_owned (ws : List (Time × Bool)) :
    ∀ y : Sys, (∀ w ∈ ws, w.2 = true) → Owned y → y.pc ≠ Pc.done →
      (tickLoop y ws).disk.chunks ++ (pending (tickLoop y ws)).map chunkOf =
        y.disk.chunks ++ (pending y).map chunkOf := by
  induction ws with
  | nil => intro y _ _ _; rfl
  | cons w rest ih =>
    intro y hw ho hd
    obtain ⟨now, openOk⟩ := w
    have hok : openOk = true := hw (now, openOk) (List.mem_cons_self _ _)
    have ht := tick_owned y now openOk ho
    simp only [tickLoop]
    rw [ih (tick y now openOk) (fun w h => hw w (List.mem_cons_of_mem _ h)) ht.1
      (ht.2.1 hok hd)]
    rcases ht.2.2 with h1 | ⟨r, name, _, h2, h3⟩
    · rw [h1.1, h1.2]
    · rw [h2, h3]
      simp [Disk.chunks]

theorem drain_owned (ws : List (Time × Bool)) (y : Sys) (hw : ∀ w ∈ ws, w.2 = true)
    (ho : Owned y) (hd : y.pc ≠ Pc.done) (hpot : potential y ≤ ws.length) :
    pending (tickLoop y ws) = [] ∧
    (tickLoop y ws).disk.chunks = y.disk.chunks ++ (pending y).map chunkOf := by
  have hp := drain_core (fun y => Owned y ∧ y.pc ≠ Pc.done) ws
    (fun y w hmem hy =>
      ⟨⟨(tick_owned y w.1 w.2 hy.1).1, (tick_owned y w.1 w.2 hy.1).2.1 (hw w hmem) hy.2⟩,
        (tick_owned y w.1 w.2 hy.1).2.1 (hw w hmem) hy.2⟩)
    y ⟨ho, hd⟩ hpot
  have hc := tickLoop_owned ws y hw ho hd
  rw [hp] at hc
  exact ⟨hp, by simpa using hc⟩

theorem potential_le (y : Sys) : potential y ≤ 5 * y.f.logChan.length + 4 := by
  rcases y with ⟨f, disk, pc⟩
  cases pc <;> simp [potential]

theorem tick_recv (y : Sys) (now : Time) (openOk : Bool) (r : logMsg) (rest : List logMsg)
    (hpc : y.pc = Pc.recv) (hq : y.f.logChan = r :: rest) :
    (tick y now openOk).pc = Pc.print r ∧ (tick y now openOk).f.logChan = rest := by
  rcases y with ⟨f, disk, pc⟩
  simp only at hpc hq
  subst hpc
  simp [tick, hq]

theorem toSys_fresh (s : State) (hw : s.writing = true)
    (hf : ∃ name, s.f.fileObj = some { name := name, closed := false }) :
    Owned s.toSys ∧ pending s.toSys = s.f.logChan ∧ s.toSys.disk = s.disk := by
  simp [State.toSys, hw, Owned, pending, hf]

/-- C4, as the code has it: along any interleaving of `log` calls, steps of
the writer and calls of `Close` from a freshly constructed logger, the records
the writer has dealt with, followed by the one it holds and those in the
channel, are the accepted records in the order they were accepted, and the
chunks appended to the disk are, in that order and one each, those of some of
the records dealt with. When `Close` is not called they are those of all the
records dealt with; the step after receiving a record appends its chunk; and
if the writer has not left its loop, five steps for each queued record and
four more, with every file opening, leave nothing pending and the chunks of
all accepted records on the disk, in order. The step that receives takes the
oldest record of the channel, and the chunk of a record whose line has no `%`
is that line. -/
theorem records_written_in_order (L : Lib) (chanSize : Nat) (levelStr fp : String)
    (maxSize : Int) (t0 : Time) (openOk : Bool) (disk0 : Disk) (s0 : State) (y : Sys)
    (evs : List Event)
    (h0 : NewFileLogger L chanSize levelStr fp maxSize t0 openOk disk0 = some s0)
    (hrun : run L s0.toSys evs = some y) :
    (∃ handled written : List logMsg,
      handled ++ pending y = accepted L s0.toSys evs ∧ written.Sublist handled ∧
      y.disk.chunks = disk0.chunks ++ written.map chunkOf) ∧
    (closeFree evs = true →
      (∃ handled : List logMsg,
        handled ++ pending y = accepted L s0.toSys evs ∧
        y.disk.chunks = disk0.chunks ++ handled.map chunkOf) ∧
      (∀ r now ok, y.pc = Pc.print r →
        ∃ name, (tick y now ok).disk = y.disk ++ [(name, chunkOf r)]) ∧
      (∀ ws : List (Time × Bool), (∀ w ∈ ws, w.2 = true) → y.pc ≠ Pc.done →
        5 * y.f.logChan.length + 4 ≤ ws.length →
        pending (tickLoop y ws) = [] ∧
        (tickLoop y ws).disk.chunks =
          disk0.chunks ++ (accepted L s0.toSys evs).map chunkOf)) ∧
    (∀ r rest now ok, y.pc = Pc.recv → y.f.logChan = r :: rest →
      (tick y now ok).pc = Pc.print r ∧ (tick y now ok).f.logChan = rest) ∧
    (∀ r : logMsg, (∀ c ∈ (logLine r).toList, c ≠ '%') → chunkOf r = logLine r) := by
  have hf := NewFileLogger_fresh L chanSize levelStr fp maxSize t0 openOk disk0 s0 h0
  have hs := toSys_fresh s0 hf.2.2.2.1 ⟨_, hf.2.2.2.2.1⟩
  refine ⟨?_, ?_, ?_, ?_⟩
  · obtain ⟨handled, written, h1, h2, h3⟩ := run_order L evs s0.toSys y hrun
    rw [hs.2.1, hf.1, List.nil_append] at h1
    rw [hs.2.2, hf.2.2.1] at h3
    exact ⟨handled, written, h1, h2, h3⟩
  · intro hc
    obtain ⟨ho, handled, h1, h3⟩ := run_order_owned L evs s0.toSys y hc hs.1 hrun
    rw [hs.2.1, hf.1, List.nil_append] at h1
    rw [hs.2.2, hf.2.2.1] at h3
    refine ⟨⟨handled, h1, h3⟩, ?_, ?_⟩
    · intro r now ok hpc
      rcases (tick_owned y now ok ho).2.2 with h4 | ⟨r1, name, h5, _, h6⟩
      · have h7 : pending y = r :: y.f.logChan := by simp [pending, hpc]
        have h8 : pending (tick y now ok) = y.f.logChan := by
          rcases y with ⟨f, disk, pc⟩
          simp only at hpc
          subst hpc
          simp [tick, pending]
        rw [h7, h8] at h4
        exact absurd h4.1 (by simp)
      · rw [hpc] at h5
        cases h5
        exact ⟨name, h6⟩
    · intro ws hw hd hlen
      have hdr := drain_owned ws y hw ho hd (Nat.le_trans (potential_le y) hlen)
      refine ⟨hdr.1, ?_⟩
      rw [hdr.2, h3, ← h1]
      simp
  · intro r rest now ok hpc hq
    exact tick_recv y now ok r rest hpc hq
  · intro r hr
    exact sprintfNoOperand_plain (logLine r) hr

/-- Two calls and the three steps that write the first record, from the
default logger: the first record is on the disk, the second in the channel. -/
theorem records_written_in_order_witness :
    NewFileLogger asciiLib MaxSize "info" "/var/log" 10240 sampleTime true [] = some freshState ∧
    run asciiLib freshState.toSys sampleEvents = some sampleFinal ∧
    closeFree sampleEvents = true ∧
    ∃ handled : List logMsg,
      handled ++ pending sampleFinal = accepted asciiLib freshState.toSys sampleEvents ∧
      sampleFinal.disk.chunks = Disk.chunks [] ++ handled.map chunkOf :=
  ⟨by decide, by decide, by decide,
    ((records_written_in_order asciiLib MaxSize "info" "/var/log" 10240 sampleTime true []
      freshState sampleFinal sampleEvents (by decide) (by decide)).2.1 (by decide)).1⟩

/-- C4 fails as stated. In the first run a record is accepted, `Close` is
called, and the writer then receives the record and writes it through the
closed file: the channel is empty and so is the disk. In the second run the
first size check decides a rotation whose file does not open: the writer has
returned, the accepted record is in the channel and the disk is empty. -/
theorem accepted_record_never_written :
    accepted asciiLib freshState.toSys closedEvents = [sampleRecord "first"] ∧
    run asciiLib freshState.toSys closedEvents =
      some { f := { freshState.f with
                    fileObj := some { name := "/var/log/20240102030405.log", closed := true } },
             disk := [], pc := Pc.check } ∧
    accepted asciiLib rotatingState.toSys failedEvents = [sampleRecord "first"] ∧
    run asciiLib rotatingState.toSys failedEvents =
      some { f := { rotatingState.f with
                    logChan := [sampleRecord "first"],
                    fileObj := some { name := "/var/log/20240102030405.log", closed := true } },
             disk := [], pc := Pc.done } := by
  decide

/-! ## Closing -/

theorem fileClose_twice (file : Option File) : fileClose (fileClose file) = fileClose file := by
  cases file <;> simp [fileClose]

/-- C10 fails as stated: `Close` is called with one record in the channel; the
file is closed with nothing written, the record is still queued, and the next
iteration of the writer removes it while the disk stays empty. -/
theorem Close_loses_queued_record :
    ({ sampleState 100 2 [sampleRecord "last"] [] with
        f := (sampleState 100 2 [sampleRecord "last"] []).f.Close } : State) =
      { f := { sampleLogger 100 2 [sampleRecord "last"] with
               fileObj := some { name := "/var/log/app.log", closed := true } },
        disk := [], writing := true } ∧
    writeLogBackground
      { sampleState 100 2 [sampleRecord "last"] [] with
        f := (sampleState 100 2 [sampleRecord "last"] []).f.Close } sampleTime true =
      { f := { sampleLogger 100 2 [] with
               fileObj := some { name := "/var/log/app.log", closed := true } },
        disk := [], writing := true } := by
  decide

theorem tick_shut (y : Sys) (now : Time) (openOk : Bool) (hs : Shut y) :
    Shut (tick y now openOk) ∧ (tick y now openOk).disk = y.disk ∧
    (y.pc ≠ Pc.done → (tick y now openOk).pc ≠ Pc.done) := by
  rcases y with ⟨f, disk, pc⟩
  obtain ⟨h1, h2, h3⟩ := hs
  simp only at h1 h2 h3
  have hst : fileStat disk f.fileObj = none := by
    rw [← h1]
    cases f.fileObj <;> simp [fileClose, fileStat]
  have hfp : ∀ format, Fprintf disk f.fileObj format = disk := by
    intro format
    rw [← h1]
    cases f.fileObj <;> simp [fileClose, Fprintf]
  cases pc with
  | check => simp [tick, Filelogger.checkSize, hst, Shut, h1]
  | rotate => exact absurd rfl h2
  | assign nf => exact absurd rfl (h3 nf)
  | recv =>
    cases hq : f.logChan with
    | nil => simp [tick, hq, Shut, h1]
    | cons r rest => simp [tick, hq, Shut, h1]
  | print r => simp [tick, hfp, Shut, h1]
  | done => simp [tick, Shut, h1]

theorem step_shut (L : Lib) (y y1 : Sys) (e : Event) (h : step L y e = some y1)
    (hs : Shut y) : Shut y1 ∧ y1.disk = y.disk := by
  cases e with
  | log lv format a now Caller =>
    simp only [step] at h
    cases hl : y.f.log L lv format a now Caller with
    | none => simp [hl] at h
    | some f1 =>
      simp only [hl, Option.some.injEq] at h
      subst h
      have hle := log_effect L y f1 lv format a now Caller hl
      exact ⟨⟨by simp only [hle.2]; exact hs.1, hs.2.1, hs.2.2⟩, rfl⟩
  | tick now openOk =>
    simp only [step, Option.some.injEq] at h
    subst h
    exact ⟨(tick_shut y now openOk hs).1, (tick_shut y now openOk hs).2.1⟩
  | close =>
    simp only [step, Option.some.injEq] at h
    subst h
    exact ⟨⟨by simp [Filelogger.Close, fileClose_twice], hs.2.1, hs.2.2⟩, rfl⟩

theorem run_shut (L : Lib) (evs : List Event) :
    ∀ y y1 : Sys, Shut y → run L y evs = some y1 → Shut y1 ∧ y1.disk = y.disk := by
  induction evs with
  | nil =>
    intro y y1 hs h
    simp only [run, Option.some.injEq] at h
    subst h
    exact ⟨hs, rfl⟩
  | cons e es ih =>
    intro y y1 hs h
    simp only [run] at h
    cases hst : step L y e with
    | none => simp [hst] at h
    | some y2 =>
      simp only [hst] at h
      have h1 := step_shut L y y2 e hst hs
      have h2 := ih y2 y1 h1.1 h
      exact ⟨h2.1, by rw [h2.2, h1.2]⟩

theorem tickLoop_shut (ws : List (Time × Bool)) :
    ∀ y : Sys, Shut y → (tickLoop y ws).disk = y.disk := by
  induction ws with
  | nil => intro y _; rfl
  | cons w rest ih =>
    intro y hs
    obtain ⟨now, openOk⟩ := w
    have h1 := tick_shut y now openOk hs
    simp only [tickLoop]
    rw [ih _ h1.1, h1.2.1]

theorem tickLoop_done (ws : List (Time × Bool)) :
    ∀ y : Sys, y.pc = Pc.done → tickLoop y ws = y := by
  induction ws with
  | nil => intro y _; rfl
  | cons w rest ih =>
    intro y hd
    obtain ⟨now, openOk⟩ := w
    have h1 : tick y now openOk = y := by
      rcases y with ⟨f, disk, pc⟩
      simp only at hd
      subst hd
      rfl
    simp only [tickLoop, h1]
    exact ih y hd

theorem Close_shut (y : Sys) (h2 : y.pc ≠ Pc.rotate) (h3 : ∀ newFile, y.pc ≠ Pc.assign newFile) :
    Shut { y with f := y.f.Close } :=
  ⟨by simp [Filelogger.Close, fileClose_twice], h2, h3⟩

/-- C10, as the code has it: `Close` closes the file the logger owns at that
moment and changes nothing else, neither the channel nor the disk nor the
writer. If the writer is not between the size check that decided a rotation
and the assignment of the new file, no file changes afterwards, whatever
`log` calls, steps of the writer and further `Close` calls follow, and the
owned file stays closed; a writer still in its loop leaves nothing pending
after five steps for each queued record and four more, with the disk as
`Close` found it, and a writer that has returned leaves the channel as it
is. If the writer is in the middle of a rotation, it goes on to own the newly
opened file, which `Close` has not closed. -/
theorem Close_only_closes (L : Lib) (y : Sys) :
    step L y Event.close = some { y with f := { y.f with fileObj := fileClose y.f.fileObj } } ∧
    (y.pc ≠ Pc.rotate → (∀ newFile, y.pc ≠ Pc.assign newFile) →
      (∀ evs y1, run L { y with f := y.f.Close } evs = some y1 →
        y1.disk = y.disk ∧ fileClose y1.f.fileObj = y1.f.fileObj) ∧
      (y.pc ≠ Pc.done → ∀ ws : List (Time × Bool), 5 * y.f.logChan.length + 4 ≤ ws.length →
        pending (tickLoop { y with f := y.f.Close } ws) = [] ∧
        (tickLoop { y with f := y.f.Close } ws).disk = y.disk) ∧
      (y.pc = Pc.done → ∀ ws : List (Time × Bool),
        tickLoop { y with f := y.f.Close } ws = { y with f := y.f.Close })) ∧
    (∀ newFile now ok, y.pc = Pc.assign newFile →
      (tick { y with f := y.f.Close } now ok).f.fileObj = some newFile) ∧
    (∀ now now1 ok1, y.pc = Pc.rotate →
      (tick (tick { y with f := y.f.Close } now true) now1 ok1).f.fileObj =
        some { name := now.formatName24 ++ ".log", closed := false }) := by
  refine ⟨rfl, ?_, ?_, ?_⟩
  · intro h2 h3
    have hs := Close_shut y h2 h3
    refine ⟨?_, ?_, ?_⟩
    · intro evs y1 hrun
      have h := run_shut L evs _ y1 hs hrun
      exact ⟨h.2, h.1.1⟩
    · intro hd ws hlen
      have hp := drain_core (fun z => Shut z ∧ z.pc ≠ Pc.done) ws
        (fun z w _ hz =>
          ⟨⟨(tick_shut z w.1 w.2 hz.1).1, (tick_shut z w.1 w.2 hz.1).2.2 hz.2⟩,
            (tick_shut z w.1 w.2 hz.1).2.2 hz.2⟩)
        { y with f := y.f.Close } ⟨hs, hd⟩
        (Nat.le_trans (potential_le _) (by simpa [Filelogger.Close] using hlen))
      exact ⟨hp, tickLoop_shut ws _ hs⟩
    · intro hd ws
      exact tickLoop_done ws _ hd
  · intro newFile now ok hpc
    rcases y with ⟨f, disk, pc⟩
    simp only at hpc
    subst hpc
    simp [tick]
  · intro now now1 ok1 hpc
    rcases y with ⟨f, disk, pc⟩
    simp only at hpc
    subst hpc
    simp [tick, Filelogger.spitfile, OpenFile]

/-- Two records queued when `Close` is called between two iterations of the
writer: fourteen steps of the writer later nothing is pending and the disk is
as it was. -/
theorem Close_only_closes_witness :
    (sampleState 100 2 [sampleRecord "one", sampleRecord "last"] []).toSys.pc = Pc.check ∧
    5 * (sampleState 100 2 [sampleRecord "one", sampleRecord "last"] []).toSys.f.logChan.length
      + 4 ≤ (List.replicate 14 (sampleTime, true)).length ∧
    pending (tickLoop
      { (sampleState 100 2 [sampleRecord "one", sampleRecord "last"] []).toSys with
        f := (sampleState 100 2 [sampleRecord "one", sampleRecord "last"] []).toSys.f.Close }
      (List.replicate 14 (sampleTime, true))) = [] ∧
    (tickLoop
      { (sampleState 100 2 [sampleRecord "one", sampleRecord "last"] []).toSys with
        f := (sampleState 100 2 [sampleRecord "one", sampleRecord "last"] []).toSys.f.Close }
      (List.replicate 14 (sampleTime, true))).disk =
      (sampleState 100 2 [sampleRecord "one", sampleRecord "last"] []).toSys.disk :=
  ⟨by decide, by decide,
    ((Close_only_closes asciiLib
      (sampleState 100 2 [sampleRecord "one", sampleRecord "last"] []).toSys).2.1
      (by decide) (fun _ h => Pc.noConfusion h)).2.1 (by decide)
      (List.replicate 14 (sampleTime, true)) (by decide)⟩

/-- A `Close` that falls between the size check deciding a rotation and the
assignment of the new file: the record is written, after `Close`, to the new
file, which stays open. -/
theorem Close_during_rotation :
    run asciiLib rotatingState.toSys
      [Event.log ERROR "first" [] sampleTime sampleCaller, Event.tick sampleTime true,
       Event.tick sampleTime true, Event.close, Event.tick sampleTime true,
       Event.tick sampleTime true, Event.tick sampleTime true] =
      some { f := { rotatingState.f with
                    fileObj := some { name := "20240102150405.log", closed := false } },
             disk := [("20240102150405.log",
               "[2024-01-02 15:04:05] [ERROR] [go: main.main: 42] first\n")],
             pc := Pc.check } := by
  decide

end MyLogger
